import Mathlib

/-!
# VoxelShift native core — verification development

Shallow embedding of the C core under `src/native/` (CTB RLE decoder,
PNG scanline builder, area statistics, per-layer and phased batch
pipelines) together with proofs of the specified properties.

Byte buffers (`uint8_t*`) are modelled as `List Nat` whose elements are
reduced modulo 256 at the point where the C code reads a `uint8_t`;
in-place stores become `List.set` (which, like a store through a bounds-
checked index, leaves the list unchanged when the index is out of range).
32-bit unsigned arithmetic is `Nat` arithmetic taken `% 2^32` where
the C code can wrap.  `double` accumulators are modelled as `ℚ`; the
claims proved about them only inspect exact zero values, which IEEE
doubles represent exactly.  Fallible C functions returning `0`/`1`
become `Option`-valued functions.
-/

namespace VoxelShift

/-! ## Small list helpers -/

/-- `List.getD` after `List.set` at the same (in-range) position. -/
theorem getD_set_self {l : List Nat} {i : Nat} (h : i < l.length) (v d : Nat) :
    (l.set i v).getD i d = v := by
  simp [List.getD, List.getElem?_set_self', List.getElem?_eq_getElem h]

/-- `List.getD` after `List.set` at a different position. -/
theorem getD_set_ne {l : List Nat} {i j : Nat} (h : i ≠ j) (v d : Nat) :
    (l.set i v).getD j d = l.getD j d := by
  simp [List.getD, List.getElem?_set_ne h]

/-! ## CTB RLE decoder (`src/native/rle_decode.c`) -/

/-- Mutable state threaded through `read_byte`: input position `n`,
evolving 32-bit decryption key, key byte index, and the `ok` flag. -/
structure RleState where
  n : Nat
  key : Nat
  kbi : Nat
  ok : Bool
deriving Repr, DecidableEq

/-- `read_byte` from `rle_decode.c`: read one byte from the encoded
stream, XOR it with the evolving key when encryption is enabled, and
update the key every 4 bytes.  Reading past the end clears `ok`. -/
def read_byte (data : List Nat) (encrypted : Bool) (init : Nat) (s : RleState) :
    Nat × RleState :=
  if s.n ≥ data.length then (0, { s with ok := false })
  else
    let value := data.getD s.n 0 % 256
    let s1 := { s with n := s.n + 1 }
    if encrypted then
      let k := (s1.key >>> (8 * s1.kbi)) % 256
      let v := value ^^^ k
      let kbi1 := s1.kbi + 1
      if kbi1 &&& 3 = 0 then
        (v, { s1 with key := (s1.key + init) % 2 ^ 32, kbi := 0 })
      else
        (v, { s1 with kbi := kbi1 })
    else (value, s1)

/-- Stride-descriptor parsing from `decrypt_and_decode_layer`
(`rle_decode.c`, the body of the `(code & 0x80) != 0` branch):
read the descriptor byte and 0–3 extension bytes.  When the final
state has `ok = false` the decode loop discards the returned stride. -/
def readStride (data : List Nat) (encrypted : Bool) (init : Nat) (s : RleState) :
    Nat × RleState :=
  let r := read_byte data encrypted init s
  let slen := r.1
  let s1 := r.2
  if s1.ok = false then (1, s1)
  else if slen &&& 0x80 = 0 then (slen, s1)
  else if slen &&& 0xC0 = 0x80 then
    let r0 := read_byte data encrypted init s1
    (((slen &&& 0x3F) <<< 8) + r0.1, r0.2)
  else if slen &&& 0xE0 = 0xC0 then
    let r0 := read_byte data encrypted init s1
    let r1 := read_byte data encrypted init r0.2
    (((slen &&& 0x1F) <<< 16) + (r0.1 <<< 8) + r1.1, r1.2)
  else if slen &&& 0xF0 = 0xE0 then
    let r0 := read_byte data encrypted init s1
    let r1 := read_byte data encrypted init r0.2
    let r2 := read_byte data encrypted init r1.2
    (((slen &&& 0x0F) <<< 24) + (r0.1 <<< 16) + (r1.1 <<< 8) + r2.1, r2.2)
  else (1, s1)

/-- One iteration of the decode loop in `decrypt_and_decode_layer`:
read the code byte, parse the optional stride descriptor, and compute
the run's pixel value (`(uint8_t)((code << 1) | 1)` for non-zero codes).
Returns `(pixel_value, stride, state)`; the caller writes the run only
when the resulting state still has `ok = true`. -/
def parseRun (data : List Nat) (encrypted : Bool) (init : Nat) (s : RleState) :
    Nat × Nat × RleState :=
  let r := read_byte data encrypted init s
  let code0 := r.1
  let s1 := r.2
  if s1.ok = false then (0, 0, s1)
  else if code0 &&& 0x80 ≠ 0 then
    let code := code0 &&& 0x7F
    let r2 := readStride data encrypted init s1
    ((if code = 0 then 0 else ((code <<< 1) ||| 1) % 256), r2.1, r2.2)
  else
    ((if code0 = 0 then 0 else ((code0 <<< 1) ||| 1) % 256), 1, s1)

/-- Write the run `[start, stop)` of value `v` into the pixel buffer
(the C `for (i = pixel; i < end; i++) out_pixels[i] = pixel_value`). -/
def writeRun (out : List Nat) (start stop v : Nat) : List Nat :=
  (List.range' start (stop - start)).foldl (fun acc i => acc.set i v) out

/-- The decode loop of `decrypt_and_decode_layer`, with explicit fuel.
The C loop runs `while (n < data_len && pixel < pixel_count && ok)`;
each iteration consumes at least one input byte, so `data.length` fuel
is enough (proved below as `decodeLoop_fuel_ge`). -/
def decodeLoop (data : List Nat) (encrypted : Bool) (init : Nat)
    (pixelCount : Nat) : Nat → RleState → Nat → List Nat → List Nat
  | 0, _, _, out => out
  | fuel + 1, s, pixel, out =>
    if s.n < data.length ∧ pixel < pixelCount ∧ s.ok = true then
      let r := parseRun data encrypted init s
      let pv := r.1
      let stride := r.2.1
      let s2 := r.2.2
      if s2.ok = true then
        let stop := min (pixel + stride) pixelCount
        let out2 := if pv ≠ 0 then writeRun out pixel stop pv else out
        decodeLoop data encrypted init pixelCount fuel s2 stop out2
      else out
    else out

/-- `init` value of the CTB stream cipher
(`init = encryption_key * 0x2d83cdac + 0xd8a83423`, mod 2^32). -/
def rleInit (encryptionKey : Nat) : Nat :=
  (encryptionKey * 0x2d83cdac + 0xd8a83423) % 2 ^ 32

/-- Initial per-layer key of the CTB stream cipher
(`key = (layer_index * 0x1e1530cd + 0xec3d47cd) * init`, mod 2^32). -/
def rleKey0 (layerIndex encryptionKey : Nat) : Nat :=
  ((layerIndex * 0x1e1530cd + 0xec3d47cd) * rleInit encryptionKey) % 2 ^ 32

/-- `decrypt_and_decode_layer` from `rle_decode.c`.  `layer_index` and
`encryption_key` carry the `uint32_t` values of the C casts.  Returns
`none` exactly when the C function rejects its arguments (null/empty
data or non-positive pixel count), otherwise the decoded pixel buffer. -/
def decrypt_and_decode_layer (data : List Nat) (layerIndex encryptionKey : Nat)
    (pixelCount : Nat) : Option (List Nat) :=
  if data.length = 0 ∨ pixelCount = 0 then none
  else
    let encrypted := encryptionKey ≠ 0
    let init := if encrypted then rleInit encryptionKey else 0
    let key0 := if encrypted then rleKey0 layerIndex encryptionKey else 0
    some (decodeLoop data encrypted init pixelCount data.length
      ⟨0, key0, 0, true⟩ 0 (List.replicate pixelCount 0))

example : decrypt_and_decode_layer [0x81, 0x05] 0 0 8 =
    some [3, 3, 3, 3, 3, 0, 0, 0] := by decide

example : decrypt_and_decode_layer [0x00, 0x7F] 0 0 3 =
    some [0, 255, 0] := by decide

example : decrypt_and_decode_layer [0x81, 0x82, 0x01] 0 0 4 =
    some [3, 3, 3, 3] := by decide

/-! ### Basic facts about the byte reader -/

theorem read_byte_n (data : List Nat) (e : Bool) (init : Nat) (s : RleState) :
    (read_byte data e init s).2.n = if s.n < data.length then s.n + 1 else s.n := by
  simp only [read_byte]
  split_ifs with h1 h2 h3 <;> simp_all <;> omega

theorem read_byte_n_ge (data : List Nat) (e : Bool) (init : Nat) (s : RleState) :
    s.n ≤ (read_byte data e init s).2.n := by
  rw [read_byte_n]; split_ifs <;> omega

theorem read_byte_ok (data : List Nat) (e : Bool) (init : Nat) (s : RleState) :
    (read_byte data e init s).2.ok = (s.ok && decide (s.n < data.length)) := by
  simp only [read_byte]
  split_ifs with h1 h2 h3 <;> simp_all

theorem xor_lt_256 {a b : Nat} (ha : a < 256) (hb : b < 256) : a ^^^ b < 256 :=
  Nat.bitwise_lt (f := bne) (n := 8) ha hb

theorem read_byte_val_lt (data : List Nat) (e : Bool) (init : Nat) (s : RleState) :
    (read_byte data e init s).1 < 256 := by
  simp only [read_byte]
  split_ifs with h1 h2 h3
  · norm_num
  · exact xor_lt_256 (Nat.mod_lt _ (by norm_num)) (Nat.mod_lt _ (by norm_num))
  · exact xor_lt_256 (Nat.mod_lt _ (by norm_num)) (Nat.mod_lt _ (by norm_num))
  · exact Nat.mod_lt _ (by norm_num)

theorem readStride_n_ge (data : List Nat) (e : Bool) (init : Nat) (s : RleState) :
    s.n ≤ (readStride data e init s).2.n := by
  have h0 := read_byte_n_ge data e init s
  simp only [readStride]
  split_ifs with h1 h2 h3 h4 h5
  · exact h0
  · exact h0
  · exact le_trans h0 (read_byte_n_ge data e init _)
  · exact le_trans h0 (le_trans (read_byte_n_ge data e init _)
      (read_byte_n_ge data e init _))
  · exact le_trans h0 (le_trans (read_byte_n_ge data e init _)
      (le_trans (read_byte_n_ge data e init _) (read_byte_n_ge data e init _)))
  · exact h0

theorem parseRun_n_gt (data : List Nat) (e : Bool) (init : Nat) (s : RleState)
    (h : s.n < data.length) : s.n + 1 ≤ (parseRun data e init s).2.2.n := by
  have hn : (read_byte data e init s).2.n = s.n + 1 := by
    rw [read_byte_n]; simp [h]
  have hs := readStride_n_ge data e init (read_byte data e init s).2
  simp only [parseRun]
  split_ifs <;> simp_all

/-! ### Termination of the decode loop (each iteration consumes input) -/

theorem decodeLoop_succ_of_le (data : List Nat) (e : Bool) (init : Nat) (pc : Nat) :
    ∀ fuel (s : RleState) (pixel : Nat) (out : List Nat),
      data.length ≤ s.n + fuel →
      decodeLoop data e init pc (fuel + 1) s pixel out =
        decodeLoop data e init pc fuel s pixel out := by
  intro fuel
  induction fuel with
  | zero =>
    intro s pixel out hle
    simp only [decodeLoop]
    have : ¬ (s.n < data.length ∧ pixel < pc ∧ s.ok = true) := by
      rintro ⟨hn, -, -⟩; omega
    rw [if_neg this]
  | succ f ih =>
    intro s pixel out hle
    conv_lhs => rw [decodeLoop]
    conv_rhs => rw [decodeLoop]
    by_cases hc : s.n < data.length ∧ pixel < pc ∧ s.ok = true
    · rw [if_pos hc, if_pos hc]
      simp only
      by_cases hok : (parseRun data e init s).2.2.ok = true
      · rw [if_pos hok, if_pos hok]
        exact ih _ _ _ (by have := parseRun_n_gt data e init s hc.1; omega)
      · rw [if_neg hok, if_neg hok]
    · rw [if_neg hc, if_neg hc]

/-- Helper form of loop termination: any fuel of at least
`data.length - s.n` computes the same result as exactly that much. -/
theorem decodeLoop_fuel_ge (data : List Nat) (e : Bool) (init : Nat) (pc : Nat) :
    ∀ fuel (s : RleState) (pixel : Nat) (out : List Nat),
      data.length - s.n ≤ fuel →
      decodeLoop data e init pc fuel s pixel out =
        decodeLoop data e init pc (data.length - s.n) s pixel out := by
  intro fuel
  induction fuel with
  | zero =>
    intro s pixel out hle
    have : data.length - s.n = 0 := by omega
    rw [this]
  | succ f ih =>
    intro s pixel out hle
    by_cases heq : data.length - s.n = f + 1
    · rw [heq]
    · have hf : data.length - s.n ≤ f := by omega
      rw [decodeLoop_succ_of_le data e init pc f s pixel out (by omega)]
      exact ih s pixel out hf

/-- **C10** — `decrypt_and_decode_layer` terminates on every input: each
iteration of the decode loop consumes at least one input byte (the first
`read_byte` either advances `n` or clears `ok`), so the loop's result is
already determined after at most `data_len` iterations — running the loop
with any fuel of at least `data.length` (in particular the `data.length`
the decoder passes) yields the same pixel buffer, even when a run has
decoded length 0 and writes no pixels. -/
theorem rle_decode_loop_terminates (data : List Nat) (e : Bool) (init : Nat)
    (pc : Nat) (s : RleState) (pixel : Nat) (out : List Nat) (fuel : Nat)
    (hfuel : data.length ≤ fuel) :
    decodeLoop data e init pc fuel s pixel out =
      decodeLoop data e init pc data.length s pixel out := by
  rw [decodeLoop_fuel_ge data e init pc fuel s pixel out (by omega),
    decodeLoop_fuel_ge data e init pc data.length s pixel out (by omega)]

/-- Witness for `rle_decode_loop_terminates`: on the concrete stream
`[0x81, 0x05]` (one run of five pixels of value 3), any fuel of at least
the input length gives the decoded buffer. -/
theorem rle_decode_loop_terminates_witness :
    (2 : Nat) ≤ 7 ∧
      decodeLoop [0x81, 0x05] false 0 8 7 ⟨0, 0, 0, true⟩ 0
          (List.replicate 8 0) =
        decodeLoop [0x81, 0x05] false 0 8 2 ⟨0, 0, 0, true⟩ 0
          (List.replicate 8 0) :=
  ⟨by norm_num,
    rle_decode_loop_terminates [0x81, 0x05] false 0 8 ⟨0, 0, 0, true⟩ 0
      (List.replicate 8 0) 7 (by norm_num)⟩

/-! ### Totality and buffer-size preservation of the decoder -/

theorem writeRun_length (out : List Nat) (start stop v : Nat) :
    (writeRun out start stop v).length = out.length := by
  unfold writeRun
  generalize List.range' start (stop - start) = l
  induction l generalizing out with
  | nil => rfl
  | cons a l ih => simpa [List.foldl_cons] using ih (out.set a v)

theorem decodeLoop_length (data : List Nat) (e : Bool) (init : Nat) (pc : Nat) :
    ∀ fuel (s : RleState) (pixel : Nat) (out : List Nat),
      (decodeLoop data e init pc fuel s pixel out).length = out.length := by
  intro fuel
  induction fuel with
  | zero => intro s pixel out; rfl
  | succ f ih =>
    intro s pixel out
    rw [decodeLoop]
    by_cases hc : s.n < data.length ∧ pixel < pc ∧ s.ok = true
    · rw [if_pos hc]
      simp only
      by_cases hok : (parseRun data e init s).2.2.ok = true
      · rw [if_pos hok, ih]
        split_ifs
        · exact writeRun_length _ _ _ _
        · rfl
      · rw [if_neg hok]
    · rw [if_neg hc]

/-- **C6** — for every call with valid arguments (non-empty data and a
positive pixel count; null pointers have no counterpart in the model),
`decrypt_and_decode_layer` succeeds and yields a buffer of exactly
`pixel_count` pixels: the buffer starts zero-filled, runs are clipped at
the buffer end (`min (pixel + stride) pixel_count`), and truncated input
merely stops the loop, so the result is still `some`. -/
theorem rle_decode_total (data : List Nat) (li ek pc : Nat)
    (hd : data ≠ []) (hpc : 0 < pc) :
    ∃ out, decrypt_and_decode_layer data li ek pc = some out ∧
      out.length = pc := by
  have hlen : data.length ≠ 0 := fun h => hd (List.length_eq_zero.mp h)
  unfold decrypt_and_decode_layer
  rw [if_neg (by push_neg; exact ⟨hlen, by omega⟩)]
  exact ⟨_, rfl, by rw [decodeLoop_length]; exact List.length_replicate pc 0⟩

/-- Witness for `rle_decode_total`: the stream `[0x81, 0x90]` ends in the
middle of a multi-byte stride descriptor; decoding still succeeds and all
remaining pixels stay zero. -/
theorem rle_decode_total_witness :
    ([0x81, 0x90] : List Nat) ≠ [] ∧ (0 : Nat) < 3 ∧
      (∃ out, decrypt_and_decode_layer [0x81, 0x90] 0 0 3 = some out ∧
        out.length = 3) ∧
      decrypt_and_decode_layer [0x81, 0x90] 0 0 3 = some [0, 0, 0] :=
  ⟨by decide, by decide,
    rle_decode_total [0x81, 0x90] 0 0 3 (by decide) (by decide), by decide⟩

/-! ### The CTB stream-cipher key schedule -/

/-- State of the byte reader after `i` consecutive reads with encryption
enabled, starting from state `s`. -/
def readState (data : List Nat) (init : Nat) : Nat → RleState → RleState
  | 0, s => s
  | i + 1, s => (read_byte data true init (readState data init i s)).2

theorem read_byte_state (data : List Nat) (init : Nat) (i K r : Nat)
    (hn : i < data.length) (hr : r < 4) :
    (read_byte data true init ⟨i, K, r, true⟩).2 =
      if r = 3 then ⟨i + 1, (K + init) % 2 ^ 32, 0, true⟩
      else ⟨i + 1, K, r + 1, true⟩ := by
  have hnot : ¬ i ≥ data.length := Nat.not_le.mpr hn
  have hand : ∀ x : Nat, x &&& 3 = x % 4 := fun x => by
    have := Nat.and_pow_two_sub_one_eq_mod x 2
    norm_num at this
    exact this
  by_cases h3 : r = 3
  · subst h3
    simp [read_byte, hnot, hand]
  · have h4 : (r + 1) % 4 ≠ 0 := by omega
    simp [read_byte, hnot, hand, h4, h3]

theorem read_byte_value (data : List Nat) (init : Nat) (i K r : Nat)
    (hn : i < data.length) :
    (read_byte data true init ⟨i, K, r, true⟩).1 =
      (data.getD i 0 % 256) ^^^ ((K >>> (8 * r)) % 256) := by
  have hnot : ¬ i ≥ data.length := Nat.not_le.mpr hn
  simp only [read_byte]
  rw [if_neg hnot]
  by_cases h4 : (r + 1) &&& 3 = 0 <;> simp [h4]

theorem readState_closed (data : List Nat) (init k0 : Nat) (hk : k0 < 2 ^ 32) :
    ∀ i, i ≤ data.length →
      readState data init i ⟨0, k0, 0, true⟩ =
        ⟨i, (k0 + i / 4 * init) % 2 ^ 32, i % 4, true⟩ := by
  intro i
  induction i with
  | zero =>
    intro _
    simp only [readState, Nat.zero_div, Nat.zero_mul, Nat.add_zero, Nat.zero_mod,
      RleState.mk.injEq, true_and, and_true]
    omega
  | succ i ih =>
    intro hi
    have hn : i < data.length := hi
    rw [readState, ih (le_of_lt hn),
      read_byte_state data init i _ (i % 4) hn (Nat.mod_lt _ (by norm_num))]
    by_cases h3 : i % 4 = 3
    · rw [if_pos h3]
      have h1 : (i + 1) / 4 = i / 4 + 1 := by omega
      have h2 : (i + 1) % 4 = 0 := by omega
      rw [h1, h2]
      simp only [RleState.mk.injEq, and_true, true_and]
      rw [Nat.mod_add_mod]
      congr 1
      ring
    · rw [if_neg h3]
      have h1 : (i + 1) / 4 = i / 4 := by omega
      have h2 : (i + 1) % 4 = i % 4 + 1 := by omega
      rw [h1, h2]

/-- **C7** — when `encryption_key` is non-zero the decoder runs with the
stream cipher: `init = encryption_key * 0x2D83CDAC + 0xD8A83423` and
initial key `(layer_index * 0x1E1530CD + 0xEC3D47CD) * init`, both mod
2^32; after `i` byte reads the key byte index is `i % 4` and the key has
been incremented `i / 4` times by `init` (resetting the index after every
4th read), and the byte at overall read position `i` is XORed with byte
number `i % 4` of that key. -/
theorem rle_cipher_schedule (data : List Nat) (li ek pc i : Nat)
    (hek : ek ≠ 0) (hpc : pc ≠ 0) (hd : data.length ≠ 0) (hi : i < data.length) :
    decrypt_and_decode_layer data li ek pc =
      some (decodeLoop data true (rleInit ek) pc data.length
        ⟨0, rleKey0 li ek, 0, true⟩ 0 (List.replicate pc 0)) ∧
    readState data (rleInit ek) i ⟨0, rleKey0 li ek, 0, true⟩ =
      ⟨i, (rleKey0 li ek + i / 4 * rleInit ek) % 2 ^ 32, i % 4, true⟩ ∧
    (read_byte data true (rleInit ek)
        (readState data (rleInit ek) i ⟨0, rleKey0 li ek, 0, true⟩)).1 =
      (data.getD i 0 % 256) ^^^
        ((((rleKey0 li ek + i / 4 * rleInit ek) % 2 ^ 32) >>> (8 * (i % 4))) % 256) := by
  have hclosed := readState_closed data (rleInit ek) (rleKey0 li ek)
    (Nat.mod_lt _ (by norm_num)) i (le_of_lt hi)
  refine ⟨?_, hclosed, ?_⟩
  · unfold decrypt_and_decode_layer
    rw [if_neg (by push_neg; exact ⟨hd, hpc⟩)]
    simp [hek]
  · rw [hclosed]
    exact read_byte_value data (rleInit ek) i _ (i % 4) hi

/-- Witness for `rle_cipher_schedule` at a concrete encrypted stream. -/
theorem rle_cipher_schedule_witness :
    (7 : Nat) ≠ 0 ∧ (4 : Nat) ≠ 0 ∧
      ([1, 2, 3, 4, 5, 6] : List Nat).length ≠ 0 ∧ (5 : Nat) < 6 ∧
      (read_byte [1, 2, 3, 4, 5, 6] true (rleInit 7)
          (readState [1, 2, 3, 4, 5, 6] (rleInit 7) 5 ⟨0, rleKey0 2 7, 0, true⟩)).1 =
        (([1, 2, 3, 4, 5, 6] : List Nat).getD 5 0 % 256) ^^^
          ((((rleKey0 2 7 + 5 / 4 * rleInit 7) % 2 ^ 32) >>> (8 * (5 % 4))) % 256) :=
  ⟨by decide, by decide, by decide, by decide,
    (rle_cipher_schedule [1, 2, 3, 4, 5, 6] 2 7 4 5 (by decide) (by decide)
      (by decide) (by decide)).2.2⟩

/-! ### The run grammar of the decoder -/

/-- The run's pixel value as the spec states it:
`0` when the cleared code is `0`, else `(code << 1) | 1`. -/
def runPixelValue (code : Nat) : Nat :=
  if code = 0 then 0 else (code <<< 1) ||| 1

theorem lt_128_of_msb_clear {c : Nat} (hc : c < 256) (h : c &&& 0x80 = 0) :
    c < 128 := by
  by_contra hge
  push_neg at hge
  have h7 : c / 128 = 1 := by omega
  have ht : c.testBit 7 = true := by
    rw [Nat.testBit_to_div_mod]
    simp [show (2 : Nat) ^ 7 = 128 by norm_num, h7]
  have h0 := congrArg (fun x => x.testBit 7) h
  simp only [Nat.testBit_and, ht, Nat.zero_testBit, Bool.true_and] at h0
  have h128 : (0x80 : Nat).testBit 7 = true := by decide
  rw [h128] at h0
  exact Bool.noConfusion h0

theorem runValue_lt_256 {c : Nat} (hc : c < 128) : (c <<< 1) ||| 1 < 256 := by
  have h1 : c <<< 1 < 2 ^ 8 := by rw [Nat.shiftLeft_eq]; omega
  have h2 : (1 : Nat) < 2 ^ 8 := by norm_num
  have h3 := Nat.or_lt_two_pow h1 h2
  omega

theorem runValue_mod (c : Nat) (hc : c < 128) :
    ((c <<< 1) ||| 1) % 256 = (c <<< 1) ||| 1 :=
  Nat.mod_eq_of_lt (runValue_lt_256 hc)

theorem shiftLeft8_add_eq_or (a b : Nat) (hb : b < 256) :
    (a <<< 8) + b = (a <<< 8) ||| b := by
  rw [Nat.shiftLeft_eq, Nat.mul_comm]
  exact Nat.mul_add_lt_is_or (by omega) a

theorem and_sub_mask (m2 : Nat) {sl m1 v : Nat} (h : sl &&& m1 = v)
    (hm : m1 &&& m2 = m2) : sl &&& m2 = v &&& m2 := by
  have h1 : sl &&& m2 = sl &&& (m1 &&& m2) := by rw [hm]
  rw [h1, ← Nat.and_assoc, h]

/-- **C5** — run interpretation of `decrypt_and_decode_layer`: a code byte
with MSB 0 yields run length 1; otherwise the MSB is cleared and a stride
descriptor `s` is read, giving length `s` when `(s & 0x80) == 0`,
`((s & 0x3F) << 8) | next` when `(s & 0xC0) == 0x80`,
`((s & 0x1F) << 16)` plus two more bytes when `(s & 0xE0) == 0xC0`,
`((s & 0x0F) << 24)` plus three more bytes when `(s & 0xF0) == 0xE0`,
and length 1 for any other `s`; the run's pixel value is 0 when the
cleared code is 0 and `(code << 1) | 1` otherwise. -/
theorem rle_run_grammar (data : List Nat) (e : Bool) (init : Nat)
    (s s1 : RleState) (c : Nat)
    (hread : read_byte data e init s = (c, s1)) (hok : s1.ok = true) :
    (c &&& 0x80 = 0 →
      parseRun data e init s = (runPixelValue c, 1, s1)) ∧
    (c &&& 0x80 ≠ 0 →
      ∀ sl s2, read_byte data e init s1 = (sl, s2) → s2.ok = true →
        ((sl &&& 0x80 = 0 →
          parseRun data e init s = (runPixelValue (c &&& 0x7F), sl, s2)) ∧
        (sl &&& 0xC0 = 0x80 →
          parseRun data e init s =
            (runPixelValue (c &&& 0x7F),
              ((sl &&& 0x3F) <<< 8) ||| (read_byte data e init s2).1,
              (read_byte data e init s2).2)) ∧
        (sl &&& 0xE0 = 0xC0 →
          parseRun data e init s =
            (runPixelValue (c &&& 0x7F),
              ((sl &&& 0x1F) <<< 16) + ((read_byte data e init s2).1 <<< 8)
                + (read_byte data e init (read_byte data e init s2).2).1,
              (read_byte data e init (read_byte data e init s2).2).2)) ∧
        (sl &&& 0xF0 = 0xE0 →
          parseRun data e init s =
            (runPixelValue (c &&& 0x7F),
              ((sl &&& 0x0F) <<< 24) + ((read_byte data e init s2).1 <<< 16)
                + ((read_byte data e init (read_byte data e init s2).2).1 <<< 8)
                + (read_byte data e init
                    (read_byte data e init (read_byte data e init s2).2).2).1,
              (read_byte data e init
                (read_byte data e init (read_byte data e init s2).2).2).2)) ∧
        (sl &&& 0x80 ≠ 0 → sl &&& 0xC0 ≠ 0x80 → sl &&& 0xE0 ≠ 0xC0 →
          sl &&& 0xF0 ≠ 0xE0 →
          parseRun data e init s = (runPixelValue (c &&& 0x7F), 1, s2)))) := by
  have hc256 : c < 256 := by
    have := read_byte_val_lt data e init s
    rw [hread] at this
    exact this
  constructor
  · intro hmsb
    have hc : c < 128 := lt_128_of_msb_clear hc256 hmsb
    by_cases hc0 : c = 0
    · simp [parseRun, hread, hok, hmsb, hc0, runPixelValue]
    · simp [parseRun, hread, hok, hmsb, hc0, runPixelValue, runValue_mod c hc]
  · intro hmsb sl s2 hread2 hok2
    have hc' : c &&& 0x7F < 128 :=
      lt_of_le_of_lt Nat.and_le_right (by norm_num)
    refine ⟨?_, ?_, ?_, ?_, ?_⟩
    · intro hsl
      simp [parseRun, readStride, hread, hok, hmsb, hread2, hok2, hsl,
        runPixelValue, runValue_mod _ hc']
    · intro hsl
      have h80 : sl &&& 0x80 = 0x80 :=
        (and_sub_mask 0x80 hsl (by decide)).trans (by decide)
      have hb0 : (read_byte data e init s2).1 < 256 := read_byte_val_lt data e init s2
      simp [parseRun, readStride, hread, hok, hmsb, hread2, hok2, hsl, h80,
        runPixelValue, runValue_mod _ hc', shiftLeft8_add_eq_or _ _ hb0]
    · intro hsl
      have h80 : sl &&& 0x80 = 0x80 :=
        (and_sub_mask 0x80 hsl (by decide)).trans (by decide)
      have hC0 : sl &&& 0xC0 = 0xC0 :=
        (and_sub_mask 0xC0 hsl (by decide)).trans (by decide)
      simp [parseRun, readStride, hread, hok, hmsb, hread2, hok2, hsl, h80, hC0,
        runPixelValue, runValue_mod _ hc']
    · intro hsl
      have h80 : sl &&& 0x80 = 0x80 :=
        (and_sub_mask 0x80 hsl (by decide)).trans (by decide)
      have hC0 : sl &&& 0xC0 = 0xC0 :=
        (and_sub_mask 0xC0 hsl (by decide)).trans (by decide)
      have hE0 : sl &&& 0xE0 = 0xE0 :=
        (and_sub_mask 0xE0 hsl (by decide)).trans (by decide)
      simp [parseRun, readStride, hread, hok, hmsb, hread2, hok2, hsl, h80, hC0,
        hE0, runPixelValue, runValue_mod _ hc']
    · intro h1 h2 h3 h4
      simp [parseRun, readStride, hread, hok, hmsb, hread2, hok2, h1, h2, h3, h4,
        runPixelValue, runValue_mod _ hc']

/-- Witness for `rle_run_grammar`: the stream `[0x85, 0x83, 0x07]` is one
run token with a two-byte stride descriptor; run value `(5 << 1) | 1 = 11`
and length `(3 << 8) | 7 = 775`. -/
theorem rle_run_grammar_witness :
    read_byte [0x85, 0x83, 0x07] false 0 ⟨0, 0, 0, true⟩ = (0x85, ⟨1, 0, 0, true⟩) ∧
      (RleState.mk 1 0 0 true).ok = true ∧
      parseRun [0x85, 0x83, 0x07] false 0 ⟨0, 0, 0, true⟩ =
        (11, 775, ⟨3, 0, 0, true⟩) := by
  refine ⟨by decide, by decide, ?_⟩
  have h := (rle_run_grammar [0x85, 0x83, 0x07] false 0 ⟨0, 0, 0, true⟩
    ⟨1, 0, 0, true⟩ 0x85 (by decide) (by decide)).2
  have h2 := (h (by decide) 0x83 ⟨2, 0, 0, true⟩ (by decide) (by decide)).2.1
    (by decide)
  rw [h2]
  decide

/-! ## CPU scanline builder (`src/native/png_encode.c`) -/

/-- One source subpixel as read by `build_png_scanlines`: the byte at
(signed) subscript `si` of the current row, with out-of-range subscripts
contributing 0 (the C test `si >= 0 && si < src_width`). -/
def subpx (grey : List Nat) (srcWidth rowOff : Nat) (si : Int) : Nat :=
  if 0 ≤ si ∧ si < srcWidth then grey.getD (rowOff + si.toNat) 0 % 256 else 0

/-- `pad_left` of `build_png_scanlines`: `pad_total > 0 ? pad_total / 2 : 0`
with `pad_total = req - src_width`, written with truncated subtraction. -/
def padLeft (srcWidth req : Nat) : Nat := (req - srcWidth) / 2

/-- The three bytes written for RGB output pixel `x` (`si = x*3 - pad_left`). -/
def rgbTriple (grey : List Nat) (srcWidth rowOff pl x : Nat) : List Nat :=
  [subpx grey srcWidth rowOff ((3 * x : Int) - pl),
    subpx grey srcWidth rowOff ((3 * x : Int) - pl + 1),
    subpx grey srcWidth rowOff ((3 * x : Int) - pl + 2)]

/-- The byte written for greyscale output pixel `x`: `(a + b) >> 1` over
the subpixels at `si = x*2 - pad_left` and `si + 1`. -/
def greyAvg (grey : List Nat) (srcWidth rowOff pl x : Nat) : Nat :=
  (subpx grey srcWidth rowOff ((2 * x : Int) - pl) +
    subpx grey srcWidth rowOff ((2 * x : Int) - pl + 1)) >>> 1

/-- One unfiltered output row of `build_png_scanlines`: placeholder filter
byte 0 followed by the mapped pixel bytes. -/
def rawRow (grey : List Nat) (srcWidth outWidth channels y : Nat) : List Nat :=
  if channels = 3 then
    0 :: (List.range outWidth).flatMap
      (rgbTriple grey srcWidth (y * srcWidth) (padLeft srcWidth (outWidth * 3)))
  else
    0 :: (List.range outWidth).map
      (greyAvg grey srcWidth (y * srcWidth) (padLeft srcWidth (outWidth * 2)))

/-- The mapping phase of `build_png_scanlines` (all rows, before the Up
filter is applied). -/
def buildRawScanlines (grey : List Nat) (srcWidth height outWidth channels : Nat) :
    List Nat :=
  (List.range height).flatMap (rawRow grey srcWidth outWidth channels)

/-- The in-place filter stores of one row (`for i = 1 .. bytes_per_row`):
each data byte becomes `(cur - prev) & 0xFF`. -/
def upRowGo (cur prev : Nat) (idxs : List Nat) (a : List Nat) : List Nat :=
  idxs.foldl
    (fun acc i =>
      acc.set (cur + i)
        ((((acc.getD (cur + i) 0 : Int) - (acc.getD (prev + i) 0 : Int)) % 256).toNat))
    a

/-- Up-filter one row in place: write filter byte 2, then subtract the
previous row byte-wise mod 256. -/
def upFilterRow (ss bpr y : Nat) (a : List Nat) : List Nat :=
  upRowGo (y * ss) ((y - 1) * ss) (List.range' 1 bpr) (a.set (y * ss) 2)

/-- The bottom-to-top filter loop of `build_png_scanlines`
(`for y = height-1; y >= 1; y--`), processing rows `m, m-1, …, 1`. -/
def upFilterFrom (ss bpr : Nat) : Nat → List Nat → List Nat
  | 0, a => a
  | y + 1, a => upFilterFrom ss bpr y (upFilterRow ss bpr (y + 1) a)

/-- Whole filter phase: bottom-to-top Up filter, then row 0's filter byte
is set to 2 (its data bytes stay unfiltered). -/
def applyUpFilter (ss bpr height : Nat) (a : List Nat) : List Nat :=
  (upFilterFrom ss bpr (height - 1) a).set 0 2

/-- `build_png_scanlines` from `png_encode.c`: argument validation, the
subpixel→pixel mapping, then the Up filter.  The caller's buffer length
check (`out_len < required_len`) is modelled by returning the buffer at
exactly its required length. -/
def build_png_scanlines (grey : List Nat) (srcWidth height outWidth channels : Nat) :
    Option (List Nat) :=
  if srcWidth = 0 ∨ height = 0 ∨ outWidth = 0 ∨ (channels ≠ 1 ∧ channels ≠ 3) then
    none
  else
    some (applyUpFilter (1 + outWidth * channels) (outWidth * channels) height
      (buildRawScanlines grey srcWidth height outWidth channels))

example : build_png_scanlines [10, 20, 30, 40] 4 1 3 3 =
    some [2, 0, 0, 10, 20, 30, 40, 0, 0, 0] := by decide

example : build_png_scanlines [10, 200] 1 2 1 1 =
    some [2, 5, 2, 95] := by decide

/-! ### Indexing the mapping phase -/

theorem getD_append_left {l1 l2 : List Nat} {n d : Nat} (h : n < l1.length) :
    (l1 ++ l2).getD n d = l1.getD n d := by
  simp [List.getD_eq_getElem?_getD, List.getElem?_append, h]

theorem getD_append_right {l1 l2 : List Nat} {n d : Nat} (h : l1.length ≤ n) :
    (l1 ++ l2).getD n d = l2.getD (n - l1.length) d := by
  simp [List.getD_eq_getElem?_getD, List.getElem?_append_right h]

theorem length_flatMap_const (f : Nat → List Nat) (k : Nat) :
    ∀ l : List Nat, (∀ a ∈ l, (f a).length = k) →
      (l.flatMap f).length = k * l.length := by
  intro l
  induction l with
  | nil => intro _; simp
  | cons a l ih =>
    intro h
    simp only [List.flatMap_cons, List.length_append, List.length_cons]
    rw [h a (by simp), ih (fun b hb => h b (by simp [hb]))]
    ring

theorem getD_flatMap_const (f : Nat → List Nat) (k : Nat) :
    ∀ (l : List Nat) (i c : Nat), (∀ a ∈ l, (f a).length = k) →
      i < l.length → c < k →
      (l.flatMap f).getD (k * i + c) 0 = (f (l.getD i 0)).getD c 0 := by
  intro l
  induction l with
  | nil => intro i c _ hi _; simp at hi
  | cons a l ih =>
    intro i c h hi hc
    simp only [List.flatMap_cons]
    cases i with
    | zero =>
      simp only [Nat.mul_zero, Nat.zero_add, List.getD_cons_zero]
      exact getD_append_left (by rw [h a (by simp)]; exact hc)
    | succ i =>
      have hidx : k * (i + 1) + c = (f a).length + (k * i + c) := by
        rw [h a (by simp)]; ring
      rw [hidx, getD_append_right (by omega), Nat.add_sub_cancel_left,
        List.getD_cons_succ]
      exact ih i c (fun b hb => h b (by simp [hb])) (by simpa using hi) hc

theorem getD_range {n i : Nat} (h : i < n) : (List.range n).getD i 0 = i := by
  simp [List.getD_eq_getElem?_getD, List.getElem?_range, h]

theorem rawRow_length (grey : List Nat) (sw ow y ch : Nat) (hch : ch = 1 ∨ ch = 3) :
    (rawRow grey sw ow ch y).length = 1 + ow * ch := by
  rcases hch with h | h <;> subst h
  · simp [rawRow]; omega
  · simp only [rawRow, eq_self_iff_true, if_true, List.length_cons]
    rw [length_flatMap_const _ 3 _ (fun a _ => by simp [rgbTriple])]
    simp [Nat.mul_comm]
    omega

theorem buildRawScanlines_length (grey : List Nat) (sw h ow ch : Nat) (hch : ch = 1 ∨ ch = 3) :
    (buildRawScanlines grey sw h ow ch).length = h * (1 + ow * ch) := by
  unfold buildRawScanlines
  rw [length_flatMap_const _ (1 + ow * ch) _
    (fun a _ => rawRow_length grey sw ow a ch hch)]
  simp [Nat.mul_comm]

theorem buildRaw_getD_row (grey : List Nat) (sw h ow ch y j : Nat) (hch : ch = 1 ∨ ch = 3)
    (hy : y < h) (hj : j < 1 + ow * ch) :
    (buildRawScanlines grey sw h ow ch).getD (y * (1 + ow * ch) + j) 0 =
      (rawRow grey sw ow ch y).getD j 0 := by
  unfold buildRawScanlines
  have hidx : y * (1 + ow * ch) + j = (1 + ow * ch) * y + j := by ring
  rw [hidx, getD_flatMap_const _ (1 + ow * ch) _ y j
    (fun a _ => rawRow_length grey sw ow a ch hch) (by simpa using hy) hj,
    getD_range hy]

theorem rawRow_getD_rgb (grey : List Nat) (sw ow y x c : Nat) (hx : x < ow) (hc : c < 3) :
    (rawRow grey sw ow 3 y).getD (1 + (3 * x + c)) 0 =
      (rgbTriple grey sw (y * sw) (padLeft sw (ow * 3)) x).getD c 0 := by
  simp only [rawRow, eq_self_iff_true, if_true]
  rw [Nat.add_comm 1 (3 * x + c), List.getD_cons_succ]
  exact getD_flatMap_const _ 3 _ x c (fun a _ => by simp [rgbTriple])
    (by simpa using hx) hc |>.trans (by rw [getD_range hx])

theorem rawRow_getD_grey (grey : List Nat) (sw ow y x : Nat) (hx : x < ow) :
    (rawRow grey sw ow 1 y).getD (1 + x) 0 =
      greyAvg grey sw (y * sw) (padLeft sw (ow * 2)) x := by
  simp only [rawRow, if_neg (by norm_num : (1 : Nat) ≠ 3)]
  rw [Nat.add_comm 1 x, List.getD_cons_succ]
  simp [List.getD_eq_getElem?_getD, List.getElem?_map, List.getElem?_range, hx]

/-- **C3** — `build_png_scanlines` centres the source row in the output.
With `channels = 3`, output pixel `x` of row `y` occupies row bytes
`1 + 3x .. 1 + 3x + 2` and takes source subpixels `si, si+1, si+2` with
`si = 3x - pad_left`, `pad_left = max(0, (out_width*3 - src_width)/2)`
(truncated `Nat` subtraction realises the `max`), out-of-range subscripts
contributing 0; with `channels = 1`, byte `1 + x` is `(a + b) >> 1` over
subpixels `si = 2x - pad_left`, `si + 1` with
`pad_left = max(0, (out_width*2 - src_width)/2)`.  In particular
`src_width = 4, out_width = 3, channels = 3` maps row `[A,B,C,D]` to
pixels `(0,0,A), (B,C,D), (0,0,0)` before filtering, and
`build_png_scanlines` is exactly the Up filter applied to this mapping. -/
theorem scanline_centering (grey : List Nat) (sw h ow : Nat) (y x : Nat)
    (hy : y < h) (hx : x < ow) :
    ((buildRawScanlines grey sw h ow 3).getD (y * (1 + ow * 3) + (1 + 3 * x)) 0 =
        subpx grey sw (y * sw) ((3 * x : Int) - padLeft sw (ow * 3)) ∧
      (buildRawScanlines grey sw h ow 3).getD (y * (1 + ow * 3) + (1 + (3 * x + 1))) 0 =
        subpx grey sw (y * sw) ((3 * x : Int) - padLeft sw (ow * 3) + 1) ∧
      (buildRawScanlines grey sw h ow 3).getD (y * (1 + ow * 3) + (1 + (3 * x + 2))) 0 =
        subpx grey sw (y * sw) ((3 * x : Int) - padLeft sw (ow * 3) + 2)) ∧
    ((buildRawScanlines grey sw h ow 1).getD (y * (1 + ow * 1) + (1 + x)) 0 =
      (subpx grey sw (y * sw) ((2 * x : Int) - padLeft sw (ow * 2)) +
        subpx grey sw (y * sw) ((2 * x : Int) - padLeft sw (ow * 2) + 1)) >>> 1) ∧
    (∀ A B C D : Nat, A < 256 → B < 256 → C < 256 → D < 256 →
      buildRawScanlines [A, B, C, D] 4 1 3 3 = [0, 0, 0, A, B, C, D, 0, 0, 0]) ∧
    (∀ ch, (ch = 1 ∨ ch = 3) → 0 < sw → 0 < h → 0 < ow →
      build_png_scanlines grey sw h ow ch =
        some (applyUpFilter (1 + ow * ch) (ow * ch) h
          (buildRawScanlines grey sw h ow ch))) := by
  have hrgb : ∀ c, c < 3 →
      (buildRawScanlines grey sw h ow 3).getD (y * (1 + ow * 3) + (1 + (3 * x + c))) 0 =
        (rgbTriple grey sw (y * sw) (padLeft sw (ow * 3)) x).getD c 0 := by
    intro c hc
    rw [buildRaw_getD_row grey sw h ow 3 y (1 + (3 * x + c)) (Or.inr rfl) hy
      (by omega), rawRow_getD_rgb grey sw ow y x c hx hc]
  refine ⟨⟨?_, ?_, ?_⟩, ?_, ?_, ?_⟩
  · have := hrgb 0 (by norm_num)
    simpa [rgbTriple] using this
  · have := hrgb 1 (by norm_num)
    simpa [rgbTriple] using this
  · have := hrgb 2 (by norm_num)
    simpa [rgbTriple] using this
  · rw [buildRaw_getD_row grey sw h ow 1 y (1 + x) (Or.inl rfl) hy (by omega),
      rawRow_getD_grey grey sw ow y x hx]
    rfl
  · intro A B C D hA hB hC hD
    have hbase : buildRawScanlines [A, B, C, D] 4 1 3 3 =
        [0, 0, 0, A % 256, B % 256, C % 256, D % 256, 0, 0, 0] := rfl
    rw [hbase, Nat.mod_eq_of_lt hA, Nat.mod_eq_of_lt hB, Nat.mod_eq_of_lt hC,
      Nat.mod_eq_of_lt hD]
  · intro ch hch hsw hh how
    unfold build_png_scanlines
    rw [if_neg]
    push_neg
    refine ⟨by omega, by omega, by omega, ?_⟩
    rcases hch with h | h <;> subst h <;> simp

/-- Witness for `scanline_centering` at the S4 geometry
(`src_width = 4, out_width = 3, channels = 3`, row `[10,20,30,40]`). -/
theorem scanline_centering_witness :
    (0 : Nat) < 1 ∧ (1 : Nat) < 3 ∧
      buildRawScanlines [10, 20, 30, 40] 4 1 3 3 =
        [0, 0, 0, 10, 20, 30, 40, 0, 0, 0] :=
  ⟨by decide, by decide,
    (scanline_centering [10, 20, 30, 40] 4 1 3 0 1 (by decide) (by decide)).2.2.1
      10 20 30 40 (by decide) (by decide) (by decide) (by decide)⟩

/-! ### The Up filter phase -/

theorem upRowGo_length (cur prev : Nat) (idxs : List Nat) :
    ∀ a : List Nat, (upRowGo cur prev idxs a).length = a.length := by
  induction idxs with
  | nil => intro a; rfl
  | cons i l ih =>
    intro a
    simp only [upRowGo, List.foldl_cons]
    have h := ih (a.set (cur + i)
      ((((a.getD (cur + i) 0 : Int) - (a.getD (prev + i) 0 : Int)) % 256).toNat))
    simp only [upRowGo] at h
    rw [h, List.length_set]

theorem upRowGo_getD (cur prev : Nat) :
    ∀ (b : Nat) (a : List Nat), prev + b ≤ cur → cur + b < a.length →
      ∀ j, (upRowGo cur prev (List.range' 1 b) a).getD j 0 =
        if cur + 1 ≤ j ∧ j ≤ cur + b then
          (((a.getD j 0 : Int) - (a.getD (prev + (j - cur)) 0 : Int)) % 256).toNat
        else a.getD j 0 := by
  intro b
  induction b with
  | zero =>
    intro a _ _ j
    rw [if_neg (by omega)]
    rfl
  | succ b ih =>
    intro a hpb hlen j
    have hconcat : List.range' 1 (b + 1) = List.range' 1 b ++ [1 + b] := by
      have h : List.range' 1 (b + 1) 1 = List.range' 1 b 1 ++ [1 + 1 * b] :=
        List.range'_concat 1 b
      simpa using h
    have hstepeq : upRowGo cur prev (List.range' 1 (b + 1)) a =
        (upRowGo cur prev (List.range' 1 b) a).set (cur + (1 + b))
          ((((upRowGo cur prev (List.range' 1 b) a).getD (cur + (1 + b)) 0 : Int) -
            ((upRowGo cur prev (List.range' 1 b) a).getD (prev + (1 + b)) 0 : Int))
              % 256).toNat := by
      simp only [upRowGo, hconcat, List.foldl_append, List.foldl_cons, List.foldl_nil]
    rw [hstepeq]
    have hacc := ih a (by omega) (by omega)
    have hlenacc : (upRowGo cur prev (List.range' 1 b) a).length = a.length :=
      upRowGo_length cur prev _ a
    have hr1 : (upRowGo cur prev (List.range' 1 b) a).getD (cur + (1 + b)) 0 =
        a.getD (cur + (1 + b)) 0 := by
      rw [hacc]; rw [if_neg (by omega)]
    have hr2 : (upRowGo cur prev (List.range' 1 b) a).getD (prev + (1 + b)) 0 =
        a.getD (prev + (1 + b)) 0 := by
      rw [hacc]; rw [if_neg (by omega)]
    rw [hr1, hr2]
    by_cases hj : j = cur + (1 + b)
    · subst hj
      rw [getD_set_self (by omega) _ _, if_pos (by omega)]
      have heq2 : cur + (1 + b) - cur = 1 + b := by omega
      rw [heq2]
    · rw [getD_set_ne (fun h => hj h.symm) _ _, hacc]
      by_cases hin : cur + 1 ≤ j ∧ j ≤ cur + b
      · rw [if_pos hin, if_pos (by omega)]
      · rw [if_neg hin, if_neg (by omega)]

theorem upFilterRow_length (ss bpr y : Nat) (a : List Nat) :
    (upFilterRow ss bpr y a).length = a.length := by
  unfold upFilterRow
  rw [upRowGo_length, List.length_set]

theorem upFilterRow_getD (ss bpr y : Nat) (a : List Nat) (hss : ss = bpr + 1)
    (hy : 1 ≤ y) (hlen : y * ss + bpr < a.length) (j : Nat) :
    (upFilterRow ss bpr y a).getD j 0 =
      if j = y * ss then 2
      else if y * ss + 1 ≤ j ∧ j ≤ y * ss + bpr then
        (((a.getD j 0 : Int) - (a.getD (j - ss) 0 : Int)) % 256).toNat
      else a.getD j 0 := by
  have hmul : (y - 1) * ss + ss = y * ss := by
    cases y with
    | zero => omega
    | succ y' => simp [Nat.succ_mul]
  have hpb : (y - 1) * ss + bpr ≤ y * ss := by omega
  unfold upFilterRow
  rw [upRowGo_getD (y * ss) ((y - 1) * ss) bpr (a.set (y * ss) 2) hpb
    (by rw [List.length_set]; omega) j]
  by_cases hj0 : j = y * ss
  · subst hj0
    rw [if_neg (by omega), if_pos rfl]
    exact getD_set_self (by omega) _ _
  · rw [if_neg hj0]
    by_cases hin : y * ss + 1 ≤ j ∧ j ≤ y * ss + bpr
    · rw [if_pos hin, if_pos hin]
      have hprev : (y - 1) * ss + (j - y * ss) = j - ss := by omega
      rw [hprev, getD_set_ne (fun h => hj0 h.symm) _ _,
        getD_set_ne (by omega) _ _]
    · rw [if_neg hin, if_neg hin]
      exact getD_set_ne (fun h => hj0 h.symm) _ _

theorem upFilterFrom_length (ss bpr : Nat) :
    ∀ (m : Nat) (a : List Nat), (upFilterFrom ss bpr m a).length = a.length := by
  intro m
  induction m with
  | zero => intro a; rfl
  | succ m ih =>
    intro a
    show (upFilterFrom ss bpr m (upFilterRow ss bpr (m + 1) a)).length = _
    rw [ih, upFilterRow_length]

theorem upFilterFrom_getD (ss bpr : Nat) (hss : ss = bpr + 1) :
    ∀ (m : Nat) (a : List Nat), (m + 1) * ss ≤ a.length →
      (∀ y i, 1 ≤ y → y ≤ m → 1 ≤ i → i ≤ bpr →
        (upFilterFrom ss bpr m a).getD (y * ss) 0 = 2 ∧
        (upFilterFrom ss bpr m a).getD (y * ss + i) 0 =
          (((a.getD (y * ss + i) 0 : Int) -
            (a.getD ((y - 1) * ss + i) 0 : Int)) % 256).toNat) ∧
      (∀ j, j < ss → (upFilterFrom ss bpr m a).getD j 0 = a.getD j 0) ∧
      (∀ j, (m + 1) * ss ≤ j → (upFilterFrom ss bpr m a).getD j 0 = a.getD j 0) := by
  intro m
  induction m with
  | zero =>
    intro a _
    exact ⟨fun y i h1 h2 _ _ => absurd (Nat.le_trans h1 h2) (by omega),
      fun j _ => rfl, fun j _ => rfl⟩
  | succ m ih =>
    intro a hlen
    have hstep : (m + 1 + 1) * ss = (m + 1) * ss + ss := by ring
    have hstep0 : (m + 1) * ss = m * ss + ss := by ring
    have hm11 : (m + 1 - 1) * ss = m * ss := by simp
    have hlen1 : (m + 1) * ss + bpr < a.length := by omega
    have hrow := upFilterRow_getD ss bpr (m + 1) a hss (by omega) hlen1
    have hblen : (upFilterRow ss bpr (m + 1) a).length = a.length :=
      upFilterRow_length ss bpr (m + 1) a
    have ihb := ih (upFilterRow ss bpr (m + 1) a) (by omega)
    have hfold : upFilterFrom ss bpr (m + 1) a =
        upFilterFrom ss bpr m (upFilterRow ss bpr (m + 1) a) := rfl
    refine ⟨?_, ?_, ?_⟩
    · intro y i hy1 hym hi1 hib
      by_cases hym' : y ≤ m
      · -- rows processed later (below row m+1): positions of rows y, y-1
        -- were untouched by the row-(m+1) pass
        have hyb : y * ss + i ≤ m * ss + bpr := by
          have h1 : y * ss ≤ m * ss := Nat.mul_le_mul_right ss hym'
          omega
        have hmono : m * ss + ss = (m + 1) * ss := by ring
        have hub : (y - 1) * ss ≤ y * ss := Nat.mul_le_mul_right ss (by omega)
        have h2 := (ihb.1 y i hy1 hym' hi1 hib).2
        have h1 := (ihb.1 y i hy1 hym' hi1 hib).1
        rw [hfold]
        constructor
        · rw [h1]
        · rw [h2, hrow (y * ss + i), hrow ((y - 1) * ss + i),
            if_neg (by omega), if_neg (by omega), if_neg (by omega),
            if_neg (by omega)]
      · -- y = m + 1: the row filtered by this pass, untouched afterwards
        have hym1 : y = m + 1 := by omega
        subst hym1
        rw [hfold]
        constructor
        · rw [ihb.2.2 ((m + 1) * ss) (by omega), hrow ((m + 1) * ss), if_pos rfl]
        · rw [ihb.2.2 ((m + 1) * ss + i) (by omega), hrow ((m + 1) * ss + i),
            if_neg (by omega), if_pos (by omega)]
          have hsub : (m + 1) * ss + i - ss = (m + 1 - 1) * ss + i := by
            omega
          rw [hsub]
    · intro j hj
      have hssle : ss ≤ (m + 1) * ss := by
        have : 1 * ss ≤ (m + 1) * ss := Nat.mul_le_mul_right ss (by omega)
        omega
      rw [hfold, ihb.2.1 j hj, hrow j, if_neg (by omega), if_neg (by omega)]
    · intro j hj
      rw [hfold, ihb.2.2 j (by omega), hrow j, if_neg (by omega),
        if_neg (by omega)]

/-- **C4** — after the mapping step, `build_png_scanlines` applies the PNG
Up filter bottom-to-top: every row's filter byte in the final output is 2;
for rows `y ≥ 1` each data byte is `(raw[y,i] - raw[y-1,i]) mod 256` where
`raw` is the unfiltered mapping result; and row 0's data bytes are the
unfiltered values (its filter byte is also set to 2). -/
theorem scanline_up_filter (grey : List Nat) (sw h ow ch : Nat) (out : List Nat)
    (hout : build_png_scanlines grey sw h ow ch = some out) :
    (∀ y, y < h → out.getD (y * (1 + ow * ch)) 0 = 2) ∧
    (∀ y i, 1 ≤ y → y < h → 1 ≤ i → i ≤ ow * ch →
      out.getD (y * (1 + ow * ch) + i) 0 =
        ((((buildRawScanlines grey sw h ow ch).getD (y * (1 + ow * ch) + i) 0 : Int) -
          ((buildRawScanlines grey sw h ow ch).getD
            ((y - 1) * (1 + ow * ch) + i) 0 : Int)) % 256).toNat) ∧
    (∀ i, 1 ≤ i → i ≤ ow * ch →
      out.getD i 0 = (buildRawScanlines grey sw h ow ch).getD i 0) := by
  unfold build_png_scanlines at hout
  by_cases hvalid : sw = 0 ∨ h = 0 ∨ ow = 0 ∨ (ch ≠ 1 ∧ ch ≠ 3)
  · rw [if_pos hvalid] at hout
    exact absurd hout (by simp)
  · rw [if_neg hvalid] at hout
    push_neg at hvalid
    obtain ⟨hsw, hh, how, hch⟩ := hvalid
    have hch' : ch = 1 ∨ ch = 3 := by
      by_cases h1 : ch = 1
      · exact Or.inl h1
      · exact Or.inr (hch h1)
    set ss := 1 + ow * ch with hssdef
    set bpr := ow * ch with hbprdef
    have hss : ss = bpr + 1 := by omega
    have hbpr1 : 1 ≤ bpr := by
      rcases hch' with h | h <;> subst h <;>
        simpa [hbprdef] using Nat.one_le_iff_ne_zero.mpr (by simpa using how)
    have hraw : (buildRawScanlines grey sw h ow ch).length = h * ss :=
      buildRawScanlines_length grey sw h ow ch hch'
    have hm1 : (h - 1 + 1) * ss ≤ (buildRawScanlines grey sw h ow ch).length := by
      rw [hraw]
      have : h - 1 + 1 = h := by omega
      rw [this]
    have hchar := upFilterFrom_getD ss bpr hss (h - 1)
      (buildRawScanlines grey sw h ow ch) hm1
    have hflen : (upFilterFrom ss bpr (h - 1)
        (buildRawScanlines grey sw h ow ch)).length = h * ss := by
      rw [upFilterFrom_length, hraw]
    have hout' : out = (upFilterFrom ss bpr (h - 1)
        (buildRawScanlines grey sw h ow ch)).set 0 2 := by
      have := hout
      simp only [applyUpFilter] at this
      exact (Option.some.injEq _ _).mp this |>.symm
    subst hout'
    refine ⟨?_, ?_, ?_⟩
    · intro y hy
      by_cases hy0 : y = 0
      · subst hy0
        simp only [Nat.zero_mul]
        exact getD_set_self (by rw [hflen]; positivity) _ _
      · rw [getD_set_ne (by positivity) _ _]
        exact (hchar.1 y 1 (by omega) (by omega) le_rfl hbpr1).1
    · intro y i hy1 hyh hi1 hib
      rw [getD_set_ne (by positivity) _ _]
      exact (hchar.1 y i hy1 (by omega) hi1 hib).2
    · intro i hi1 hib
      rw [getD_set_ne (by omega) _ _]
      exact hchar.2.1 i (by omega)

/-- Witness for `scanline_up_filter` on a 1×2 grey layer: the output rows
carry filter byte 2, row 1's data byte is the mod-256 difference of raw
rows 1 and 0, and row 0's data byte is the raw value. -/
theorem scanline_up_filter_witness :
    build_png_scanlines [10, 200] 1 2 1 1 = some [2, 5, 2, 95] ∧
      ([2, 5, 2, 95] : List Nat).getD (1 * (1 + 1 * 1)) 0 = 2 ∧
      ([2, 5, 2, 95] : List Nat).getD (1 * (1 + 1 * 1) + 1) 0 =
        ((((buildRawScanlines [10, 200] 1 2 1 1).getD (1 * (1 + 1 * 1) + 1) 0 : Int) -
          ((buildRawScanlines [10, 200] 1 2 1 1).getD
            ((1 - 1) * (1 + 1 * 1) + 1) 0 : Int)) % 256).toNat ∧
      ([2, 5, 2, 95] : List Nat).getD 1 0 =
        (buildRawScanlines [10, 200] 1 2 1 1).getD 1 0 :=
  ⟨by decide,
    (scanline_up_filter [10, 200] 1 2 1 1 [2, 5, 2, 95] (by decide)).1 1 (by decide),
    (scanline_up_filter [10, 200] 1 2 1 1 [2, 5, 2, 95] (by decide)).2.1 1 1
      (by decide) (by decide) (by decide) (by decide),
    (scanline_up_filter [10, 200] 1 2 1 1 [2, 5, 2, 95] (by decide)).2.2 1
      (by decide) (by decide)⟩

/-! ## Area statistics (`src/native/area_stats.c`) -/

/-- Pack a flood-fill coordinate as the C stack does:
`(y << 16) | (x & 0xFFFF)`. -/
def floodPack (x y : Nat) : Nat := (y <<< 16) ||| (x &&& 0xFFFF)

/-- Unpack the x coordinate: `packed & 0xFFFF`. -/
def floodUnpackX (p : Nat) : Nat := p &&& 0xFFFF

/-- Unpack the y coordinate: `(packed >> 16) & 0xFFFF`. -/
def floodUnpackY (p : Nat) : Nat := (p >>> 16) &&& 0xFFFF

/-- Result record of `compute_layer_area_stats`.  The C `double` fields
are modelled as exact rationals; the claims proved below inspect only
exact zeros, which IEEE doubles represent exactly. -/
structure AreaStatsResult where
  total_solid_area : ℚ
  largest_area : ℚ
  smallest_area : ℚ
  min_x : Nat
  min_y : Nat
  max_x : Nat
  max_y : Nat
  area_count : Nat
deriving Repr, DecidableEq

/-- State of one flood fill: visited bitset (modelled as the set of
visited indices), the packed-coordinate stack, the island pixel counter
and the running global bounds. -/
structure FillState where
  visited : Finset Nat
  stack : List Nat
  island_pixels : Nat
  min_x : Nat
  min_y : Nat
  max_x : Nat
  max_y : Nat
deriving DecidableEq

/-- The eight neighbour offsets `(dx, dy)`, in the order of the C arrays
`dx_offsets` / `dy_offsets`. -/
def neighborOffsets : List (Int × Int) :=
  [(-1, -1), (0, -1), (1, -1), (-1, 0), (1, 0), (-1, 1), (0, 1), (1, 1)]

/-- Visit one neighbour of `(cx, cy)`: bounds test, solidity and visited
tests, then mark, push, count, and update the bounds. -/
def visitNeighbor (pixels : List Nat) (width height : Nat) (cx cy : Nat)
    (st : FillState) (d : Int × Int) : FillState :=
  let nx : Int := (cx : Int) + d.1
  let ny : Int := (cy : Int) + d.2
  if 0 ≤ nx ∧ nx < width ∧ 0 ≤ ny ∧ ny < height then
    let nIdx := ny.toNat * width + nx.toNat
    if pixels.getD nIdx 0 = 0 ∨ nIdx ∈ st.visited then st
    else
      { visited := insert nIdx st.visited
        stack := floodPack nx.toNat ny.toNat :: st.stack
        island_pixels := st.island_pixels + 1
        min_x := min st.min_x nx.toNat
        min_y := min st.min_y ny.toNat
        max_x := max st.max_x nx.toNat
        max_y := max st.max_y ny.toNat }
  else st

/-- The stack-based flood-fill loop (`while (stack_len > 0)`), with fuel.
`compute_layer_area_stats` passes fuel `pixel_count + 1`, which never
runs out (`floodLoop_spec` below). -/
def floodLoop (pixels : List Nat) (width height : Nat) :
    Nat → FillState → Option FillState
  | 0, st => if st.stack = [] then some st else none
  | fuel + 1, st =>
    match st.stack with
    | [] => some st
    | packed :: rest =>
      let cy := floodUnpackY packed
      let cx := floodUnpackX packed
      let st1 := neighborOffsets.foldl
        (visitNeighbor pixels width height cx cy) { st with stack := rest }
      floodLoop pixels width height fuel st1

/-- Accumulator of the outer row-major scan. -/
structure AreaAcc where
  visited : Finset Nat
  min_x : Nat
  min_y : Nat
  max_x : Nat
  max_y : Nat
  total_area : ℚ
  largest_area : ℚ
  smallest_area : ℚ
  area_count : Nat
deriving DecidableEq

/-- Handle one root index of the scan: skip background or visited pixels,
otherwise run a flood fill from it and fold the island into the totals
(`smallest` uses the C tie rule `area_count == 0 || island < smallest`). -/
def areaScanStep (pixels : List Nat) (width height : Nat) (pixel_area : ℚ)
    (acc : AreaAcc) (idx : Nat) : Option AreaAcc :=
  let x := idx % width
  let y := idx / width
  if pixels.getD idx 0 = 0 ∨ idx ∈ acc.visited then some acc
  else
    let st0 : FillState :=
      { visited := insert idx acc.visited
        stack := [floodPack x y]
        island_pixels := 1
        min_x := min acc.min_x x
        min_y := min acc.min_y y
        max_x := max acc.max_x x
        max_y := max acc.max_y y }
    match floodLoop pixels width height (width * height + 1) st0 with
    | none => none
    | some st =>
      let island_area : ℚ := st.island_pixels * pixel_area
      some { visited := st.visited
             min_x := st.min_x
             min_y := st.min_y
             max_x := st.max_x
             max_y := st.max_y
             total_area := acc.total_area + island_area
             largest_area :=
               if island_area > acc.largest_area then island_area
               else acc.largest_area
             smallest_area :=
               if acc.area_count = 0 ∨ island_area < acc.smallest_area then
                 island_area
               else acc.smallest_area
             area_count := acc.area_count + 1 }

/-- The outer row-major scan over all pixel indices. -/
def areaScan (pixels : List Nat) (width height : Nat) (pixel_area : ℚ) :
    List Nat → AreaAcc → Option AreaAcc
  | [], acc => some acc
  | idx :: rest, acc =>
    match areaScanStep pixels width height pixel_area acc idx with
    | none => none
    | some acc1 => areaScan pixels width height pixel_area rest acc1

/-- `compute_layer_area_stats` from `area_stats.c`: argument validation,
row-major scan with 8-connected flood fill, and the all-zero record when
no island was found. -/
def compute_layer_area_stats (pixels : List Nat) (width height : Nat)
    (x_pixel_size_mm y_pixel_size_mm : ℚ) : Option AreaStatsResult :=
  if width = 0 ∨ height = 0 then none
  else
    match areaScan pixels width height (x_pixel_size_mm * y_pixel_size_mm)
        (List.range (width * height)) ⟨∅, width, height, 0, 0, 0, 0, 0, 0⟩ with
    | none => none
    | some acc =>
      if acc.area_count = 0 then some ⟨0, 0, 0, 0, 0, 0, 0, 0⟩
      else some ⟨acc.total_area, acc.largest_area, acc.smallest_area,
        acc.min_x, acc.min_y, acc.max_x, acc.max_y, acc.area_count⟩

example : compute_layer_area_stats [0, 0, 0, 0] 2 2 1 1 =
    some ⟨0, 0, 0, 0, 0, 0, 0, 0⟩ := by decide

example :
    (compute_layer_area_stats [3, 0, 0, 0, 3, 0, 0, 0, 3] 3 3 1 1).map
      (fun r => (r.area_count, r.min_x, r.min_y, r.max_x, r.max_y)) =
    some (1, 0, 0, 2, 2) := by decide

example :
    (compute_layer_area_stats [3, 0, 0, 0, 0, 0, 0, 5, 0] 3 3 1 1).map
      (fun r => (r.area_count, r.min_x, r.min_y, r.max_x, r.max_y)) =
    some (2, 0, 0, 1, 2) := by decide

/-! ### Coordinate packing (C9) -/

/-- **C9** — the flood-fill stack packs coordinates as
`(y << 16) | (x & 0xFFFF)` and unpacks them as
`((packed >> 16) & 0xFFFF, packed & 0xFFFF)`; for every `x < 65536` and
`y < 32768` (the bound implied by the int32 interface but not stated by
it) the round trip is lossless, so within those bounds the fill pops
exactly the coordinates it pushed. -/
theorem flood_pack_roundtrip (x y : Nat) (hx : x < 65536) (hy : y < 32768) :
    floodUnpackX (floodPack x y) = x ∧ floodUnpackY (floodPack x y) = y := by
  have hand16 : ∀ a : Nat, a &&& 0xFFFF = a % 65536 := fun a => by
    have h := Nat.and_pow_two_sub_one_eq_mod a 16
    norm_num at h
    exact h
  have hxmask : x &&& 0xFFFF = x := by rw [hand16]; exact Nat.mod_eq_of_lt hx
  have hpack : floodPack x y = 65536 * y + x := by
    unfold floodPack
    rw [hxmask, Nat.shiftLeft_eq, Nat.mul_comm y (2 ^ 16),
      ← Nat.mul_add_lt_is_or (by omega) y]
  constructor
  · unfold floodUnpackX
    rw [hpack, hand16]
    omega
  · unfold floodUnpackY
    rw [hpack, Nat.shiftRight_eq_div_pow, hand16]
    norm_num
    omega

/-- Witness for `flood_pack_roundtrip` at the extreme in-bounds corner. -/
theorem flood_pack_roundtrip_witness :
    (65535 : Nat) < 65536 ∧ (32767 : Nat) < 32768 ∧
      floodUnpackX (floodPack 65535 32767) = 65535 ∧
      floodUnpackY (floodPack 65535 32767) = 32767 :=
  ⟨by decide, by decide,
    (flood_pack_roundtrip 65535 32767 (by decide) (by decide)).1,
    (flood_pack_roundtrip 65535 32767 (by decide) (by decide)).2⟩

/-! ### Totality and the zero-islands invariant (C8) -/

theorem visitNeighbor_spec (pixels : List Nat) (width height cx cy : Nat)
    (st : FillState) (d : Int × Int)
    (hsub : st.visited ⊆ Finset.range (width * height)) :
    st.visited ⊆ (visitNeighbor pixels width height cx cy st d).visited ∧
    (visitNeighbor pixels width height cx cy st d).visited ⊆
      Finset.range (width * height) ∧
    (visitNeighbor pixels width height cx cy st d).stack.length +
        (width * height - (visitNeighbor pixels width height cx cy st d).visited.card) ≤
      st.stack.length + (width * height - st.visited.card) := by
  simp only [visitNeighbor]
  split_ifs with h1 h2
  · exact ⟨Finset.Subset.refl _, hsub, le_rfl⟩
  · -- a fresh solid pixel is marked and pushed
    obtain ⟨hx0, hxw, hy0, hyh⟩ := h1
    push_neg at h2
    obtain ⟨hpix, hmem⟩ := h2
    have hxw' : ((cx : Int) + d.1).toNat < width := by omega
    have hyh' : ((cy : Int) + d.2).toNat < height := by omega
    have hidx : ((cy : Int) + d.2).toNat * width + ((cx : Int) + d.1).toNat <
        width * height := by
      calc ((cy : Int) + d.2).toNat * width + ((cx : Int) + d.1).toNat
          < ((cy : Int) + d.2).toNat * width + width := by omega
        _ = (((cy : Int) + d.2).toNat + 1) * width := by ring
        _ ≤ height * width := Nat.mul_le_mul_right width (by omega)
        _ = width * height := Nat.mul_comm _ _
    have hins : insert (((cy : Int) + d.2).toNat * width + ((cx : Int) + d.1).toNat)
        st.visited ⊆ Finset.range (width * height) := by
      intro a ha
      rcases Finset.mem_insert.mp ha with h | h
      · exact Finset.mem_range.mpr (h ▸ hidx)
      · exact hsub h
    have hcard : (insert (((cy : Int) + d.2).toNat * width +
        ((cx : Int) + d.1).toNat) st.visited).card = st.visited.card + 1 :=
      Finset.card_insert_of_not_mem hmem
    have hle : st.visited.card + 1 ≤ width * height := by
      have := Finset.card_le_card hins
      rwa [hcard, Finset.card_range] at this
    refine ⟨fun a ha => Finset.mem_insert_of_mem ha, hins, ?_⟩
    simp only [List.length_cons, hcard]
    omega
  · exact ⟨Finset.Subset.refl _, hsub, le_rfl⟩

theorem visitFold_spec (pixels : List Nat) (width height cx cy : Nat) :
    ∀ (ds : List (Int × Int)) (st : FillState),
      st.visited ⊆ Finset.range (width * height) →
      st.visited ⊆ (ds.foldl (visitNeighbor pixels width height cx cy) st).visited ∧
      (ds.foldl (visitNeighbor pixels width height cx cy) st).visited ⊆
        Finset.range (width * height) ∧
      (ds.foldl (visitNeighbor pixels width height cx cy) st).stack.length +
          (width * height -
            (ds.foldl (visitNeighbor pixels width height cx cy) st).visited.card) ≤
        st.stack.length + (width * height - st.visited.card) := by
  intro ds
  induction ds with
  | nil => intro st hsub; exact ⟨Finset.Subset.refl _, hsub, le_rfl⟩
  | cons d ds ih =>
    intro st hsub
    have h1 := visitNeighbor_spec pixels width height cx cy st d hsub
    have h2 := ih (visitNeighbor pixels width height cx cy st d) h1.2.1
    exact ⟨Finset.Subset.trans h1.1 h2.1, h2.2.1, le_trans h2.2.2 h1.2.2⟩

theorem floodLoop_spec (pixels : List Nat) (width height : Nat) :
    ∀ (fuel : Nat) (st : FillState),
      st.visited ⊆ Finset.range (width * height) →
      st.stack.length + (width * height - st.visited.card) < fuel →
      ∃ st', floodLoop pixels width height fuel st = some st' ∧
        st'.visited ⊆ Finset.range (width * height) ∧
        st.visited ⊆ st'.visited := by
  intro fuel
  induction fuel with
  | zero => intro st _ hmeas; omega
  | succ fuel ih =>
    intro st hsub hmeas
    cases hst : st.stack with
    | nil =>
      refine ⟨st, ?_, hsub, Finset.Subset.refl _⟩
      simp [floodLoop, hst]
    | cons packed rest =>
      have hfold := visitFold_spec pixels width height
        (floodUnpackX packed) (floodUnpackY packed) neighborOffsets
        { st with stack := rest } hsub
      have hmeas1 : (neighborOffsets.foldl
          (visitNeighbor pixels width height (floodUnpackX packed)
            (floodUnpackY packed)) { st with stack := rest }).stack.length +
          (width * height - (neighborOffsets.foldl
            (visitNeighbor pixels width height (floodUnpackX packed)
              (floodUnpackY packed)) { st with stack := rest }).visited.card) <
          fuel := by
        have hlen : st.stack.length = rest.length + 1 := by rw [hst]; rfl
        have := hfold.2.2
        simp only at this
        omega
      obtain ⟨st', hrun, hsub', hmono⟩ := ih _ hfold.2.1 hmeas1
      refine ⟨st', ?_, hsub', Finset.Subset.trans hfold.1 hmono⟩
      simp only [floodLoop, hst]
      exact hrun

theorem areaScanStep_some (pixels : List Nat) (width height : Nat)
    (pixel_area : ℚ) (acc : AreaAcc) (idx : Nat)
    (hidx : idx < width * height)
    (hsub : acc.visited ⊆ Finset.range (width * height))
    (hinv : acc.area_count = 0 → acc.visited = ∅) :
    ∃ acc1, areaScanStep pixels width height pixel_area acc idx = some acc1 ∧
      acc1.visited ⊆ Finset.range (width * height) ∧
      acc.area_count ≤ acc1.area_count ∧
      (acc1.area_count = 0 → acc1 = acc ∧ pixels.getD idx 0 = 0) ∧
      (acc1.area_count = 0 → acc1.visited = ∅) := by
  simp only [areaScanStep]
  split_ifs with hskip
  · refine ⟨acc, rfl, hsub, le_rfl, ?_, hinv⟩
    intro h0
    refine ⟨rfl, ?_⟩
    rcases hskip with h | h
    · exact h
    · rw [hinv h0] at h
      exact absurd h (Finset.not_mem_empty idx)
  · push_neg at hskip
    have hins : insert idx acc.visited ⊆ Finset.range (width * height) := by
      intro a ha
      rcases Finset.mem_insert.mp ha with h | h
      · exact Finset.mem_range.mpr (h ▸ hidx)
      · exact hsub h
    have hcard : (insert idx acc.visited).card = acc.visited.card + 1 :=
      Finset.card_insert_of_not_mem hskip.2
    have hle : acc.visited.card + 1 ≤ width * height := by
      have := Finset.card_le_card hins
      rwa [hcard, Finset.card_range] at this
    obtain ⟨st', hrun, hsub', -⟩ := floodLoop_spec pixels width height
      (width * height + 1)
      { visited := insert idx acc.visited
        stack := [floodPack (idx % width) (idx / width)]
        island_pixels := 1
        min_x := min acc.min_x (idx % width)
        min_y := min acc.min_y (idx / width)
        max_x := max acc.max_x (idx % width)
        max_y := max acc.max_y (idx / width) }
      hins (by simp only [List.length_cons, List.length_nil, hcard]; omega)
    rw [hrun]
    refine ⟨_, rfl, hsub', Nat.le_succ _, ?_, ?_⟩
    · intro h0
      exact absurd h0 (by simp)
    · intro h0
      exact absurd h0 (by simp)

theorem areaScan_spec (pixels : List Nat) (width height : Nat) (pixel_area : ℚ) :
    ∀ (l : List Nat) (acc : AreaAcc),
      (∀ i ∈ l, i < width * height) →
      acc.visited ⊆ Finset.range (width * height) →
      (acc.area_count = 0 → acc.visited = ∅) →
      ∃ acc', areaScan pixels width height pixel_area l acc = some acc' ∧
        acc'.visited ⊆ Finset.range (width * height) ∧
        acc.area_count ≤ acc'.area_count ∧
        (acc'.area_count = 0 → acc' = acc ∧ ∀ i ∈ l, pixels.getD i 0 = 0) := by
  intro l
  induction l with
  | nil =>
    intro acc _ hsub _
    exact ⟨acc, rfl, hsub, le_rfl, fun _ => ⟨rfl, by simp⟩⟩
  | cons idx rest ih =>
    intro acc hl hsub hinv
    obtain ⟨acc1, hstep, hsub1, hmono1, hzero1, hinv1⟩ :=
      areaScanStep_some pixels width height pixel_area acc idx
        (hl idx (by simp)) hsub hinv
    obtain ⟨acc', hrun, hsub', hmono', hzero'⟩ :=
      ih acc1 (fun i hi => hl i (by simp [hi])) hsub1 hinv1
    refine ⟨acc', ?_, hsub', le_trans hmono1 hmono', ?_⟩
    · simp only [areaScan, hstep]
      exact hrun
    · intro h0
      obtain ⟨heq', hrest⟩ := hzero' h0
      obtain ⟨heq1, hpix⟩ := hzero1 (by omega)
      refine ⟨heq'.trans heq1, ?_⟩
      intro i hi
      rcases List.mem_cons.mp hi with h | h
      · exact h ▸ hpix
      · exact hrest i h

theorem areaScan_all_zero (pixels : List Nat) (width height : Nat)
    (pixel_area : ℚ) :
    ∀ (l : List Nat) (acc : AreaAcc),
      (∀ i ∈ l, pixels.getD i 0 = 0) →
      areaScan pixels width height pixel_area l acc = some acc := by
  intro l
  induction l with
  | nil => intro acc _; rfl
  | cons idx rest ih =>
    intro acc hz
    have hstep : areaScanStep pixels width height pixel_area acc idx = some acc := by
      unfold areaScanStep
      rw [if_pos (Or.inl (hz idx (by simp)))]
    simp only [areaScan, hstep]
    exact ih acc (fun i hi => hz i (by simp [hi]))

/-- **C8** — for every valid layer, `compute_layer_area_stats` succeeds
and its record satisfies: `area_count = 0` iff every pixel of the buffer
is zero, and when `area_count = 0` all the other fields
(`total_solid_area`, `largest_area`, `smallest_area`, `min_x`, `min_y`,
`max_x`, `max_y`) are zero. -/
theorem area_stats_zero_iff (pixels : List Nat) (width height : Nat)
    (xps yps : ℚ) (hw : width ≠ 0) (hh : height ≠ 0) :
    ∃ r, compute_layer_area_stats pixels width height xps yps = some r ∧
      (r.area_count = 0 ↔ ∀ idx, idx < width * height → pixels.getD idx 0 = 0) ∧
      (r.area_count = 0 →
        r.total_solid_area = 0 ∧ r.largest_area = 0 ∧ r.smallest_area = 0 ∧
        r.min_x = 0 ∧ r.min_y = 0 ∧ r.max_x = 0 ∧ r.max_y = 0) := by
  obtain ⟨acc', hrun, -, hmono, hzero⟩ :=
    areaScan_spec pixels width height (xps * yps) (List.range (width * height))
      ⟨∅, width, height, 0, 0, 0, 0, 0, 0⟩
      (fun i hi => List.mem_range.mp hi) (by simp) (fun _ => rfl)
  have hcomp : compute_layer_area_stats pixels width height xps yps =
      if acc'.area_count = 0 then some ⟨0, 0, 0, 0, 0, 0, 0, 0⟩
      else some ⟨acc'.total_area, acc'.largest_area, acc'.smallest_area,
        acc'.min_x, acc'.min_y, acc'.max_x, acc'.max_y, acc'.area_count⟩ := by
    unfold compute_layer_area_stats
    rw [if_neg (by push_neg; exact ⟨hw, hh⟩), hrun]
  by_cases hc : acc'.area_count = 0
  · rw [hcomp, if_pos hc]
    refine ⟨_, rfl, ?_, fun _ => by simp⟩
    simp only [show (⟨0, 0, 0, 0, 0, 0, 0, 0⟩ : AreaStatsResult).area_count = 0
      from rfl, true_iff]
    intro idx hidx
    exact (hzero hc).2 idx (List.mem_range.mpr hidx)
  · rw [hcomp, if_neg hc]
    refine ⟨_, rfl, ?_, fun h => absurd h hc⟩
    simp only [show (⟨acc'.total_area, acc'.largest_area, acc'.smallest_area,
      acc'.min_x, acc'.min_y, acc'.max_x, acc'.max_y, acc'.area_count⟩ :
        AreaStatsResult).area_count = acc'.area_count from rfl]
    simp only [hc, false_iff]
    push_neg
    by_contra hall
    push_neg at hall
    have hzr : areaScan pixels width height (xps * yps)
        (List.range (width * height)) ⟨∅, width, height, 0, 0, 0, 0, 0, 0⟩ =
        some ⟨∅, width, height, 0, 0, 0, 0, 0, 0⟩ :=
      areaScan_all_zero pixels width height (xps * yps) _ _
        (fun i hi => hall i (List.mem_range.mp hi))
    rw [hrun] at hzr
    have heq := (Option.some.injEq _ _).mp hzr
    exact hc (by rw [heq])

/-- Witness for `area_stats_zero_iff` on a concrete 2×2 all-zero layer. -/
theorem area_stats_zero_iff_witness :
    (2 : Nat) ≠ 0 ∧
      compute_layer_area_stats [0, 0, 0, 0] 2 2 1 1 = some ⟨0, 0, 0, 0, 0, 0, 0, 0⟩ ∧
      ∃ r, compute_layer_area_stats [0, 0, 0, 0] 2 2 1 1 = some r ∧
        (r.area_count = 0 ↔ ∀ idx, idx < 2 * 2 → ([0, 0, 0, 0] : List Nat).getD idx 0 = 0) ∧
        (r.area_count = 0 →
          r.total_solid_area = 0 ∧ r.largest_area = 0 ∧ r.smallest_area = 0 ∧
          r.min_x = 0 ∧ r.min_y = 0 ∧ r.max_x = 0 ∧ r.max_y = 0) :=
  ⟨by decide, by decide,
    area_stats_zero_iff [0, 0, 0, 0] 2 2 1 1 (by decide) (by decide)⟩

/-! ## PNG container and per-layer batch pipeline
(`src/native/layer_pipeline.c`) -/

/-- One entry of the lazily built IEEE CRC32 table (`_init_crc32_table`). -/
def crc32Entry (i : Nat) : Nat :=
  (List.range 8).foldl
    (fun c _ => if c &&& 1 ≠ 0 then 0xEDB88320 ^^^ (c >>> 1) else c >>> 1) i

/-- One CRC32 update step (`c = table[(c ^ b) & 0xFF] ^ (c >> 8)`). -/
def crc32Update (c b : Nat) : Nat :=
  crc32Entry ((c ^^^ b) &&& 0xFF) ^^^ (c >>> 8)

/-- CRC32 of a byte sequence: initial `0xFFFFFFFF`, final XOR
(`_crc32_bytes`; `_crc32_type_and_data` is the same fold over
`type ++ data`). -/
def crc32Bytes (bytes : List Nat) : Nat :=
  (bytes.foldl crc32Update 0xFFFFFFFF) ^^^ 0xFFFFFFFF

/-- Big-endian u32 serialisation (`_write_u32_be`). -/
def u32be (v : Nat) : List Nat :=
  [(v >>> 24) &&& 0xFF, (v >>> 16) &&& 0xFF, (v >>> 8) &&& 0xFF, v &&& 0xFF]

/-- `_build_png_from_idat`: PNG signature, IHDR (bit depth 8, colour type
2 for RGB / 0 for grey), a single IDAT, and IEND, each chunk carrying its
CRC32 over type+data. -/
def build_png_from_idat (width height channels : Nat) (idat : List Nat) :
    List Nat :=
  let colorType := if channels = 3 then 2 else 0
  let ihdr := u32be width ++ u32be height ++ [8, colorType, 0, 0, 0]
  [0x89, 0x50, 0x4E, 0x47, 0x0D, 0x0A, 0x1A, 0x0A] ++
    (u32be 13 ++ [0x49, 0x48, 0x44, 0x52] ++ ihdr ++
      u32be (crc32Bytes ([0x49, 0x48, 0x44, 0x52] ++ ihdr))) ++
    (u32be idat.length ++ [0x49, 0x44, 0x41, 0x54] ++ idat ++
      u32be (crc32Bytes ([0x49, 0x44, 0x41, 0x54] ++ idat))) ++
    (u32be 0 ++ [0x49, 0x45, 0x4E, 0x44] ++
      u32be (crc32Bytes [0x49, 0x45, 0x4E, 0x44]))

set_option maxRecDepth 8192 in
example : crc32Bytes [0x49, 0x45, 0x4E, 0x44] = 0xAE426082 := by decide

/-- External collaborators of the pipeline: the GPU backend registry
state and the loaded kernels.  `cudaSingle`/`openclSingle` take the pixel
buffer as an `Option` because the phased pipeline can call them with a
freed (NULL) buffer; the C behaviour of the external kernel on a live
buffer is constrained only by the contract of §4.5 (byte-for-byte CPU
equality on success), carried as a hypothesis where needed. -/
structure GpuEnv where
  active : Bool
  backend : Nat
  cudaSingle : Option (List Nat) → Nat → Nat → Nat → Nat → Option (List Nat)
  openclSingle : Option (List Nat) → Nat → Nat → Nat → Nat → Option (List Nat)
  cudaMaxConcurrent : Nat → Nat → Nat → Nat → Int
  cudaBatch : List Nat → Nat → Nat → Nat → Nat → Nat → Nat → Option (List Nat)

/-- `_build_scanlines_auto` (GPU counters omitted — they do not affect
the data path): try the active backend's single-layer kernel, then fall
back to the CPU builder. -/
def build_scanlines_auto (env : GpuEnv) (allowGpu : Bool) (pixels : List Nat)
    (srcW h outW ch : Nat) : Option (List Nat) :=
  if allowGpu ∧ env.active then
    if env.backend = 3 then
      match env.cudaSingle (some pixels) srcW h outW ch with
      | some sl => some sl
      | none => build_png_scanlines pixels srcW h outW ch
    else if env.backend = 1 then
      match env.openclSingle (some pixels) srcW h outW ch with
      | some sl => some sl
      | none => build_png_scanlines pixels srcW h outW ch
    else build_png_scanlines pixels srcW h outW ch
  else build_png_scanlines pixels srcW h outW ch

/-- The C `png_level` clamp `0..9`. -/
def clampLevel (level : Int) : Nat := (min 9 (max 0 level)).toNat

/-- The deflate scratch capacity
(`scanlines_len + scanlines_len/1000 + 64`). -/
def compressCap (scanlinesLen : Nat) : Nat :=
  scanlinesLen + scanlinesLen / 1000 + 64

/-- `_process_one_layer` (analytics omitted): bounds checks, decode,
area stats, scanline build (GPU allowed — the function is called with
`allow_gpu = 1`), deflate at the clamped level into the scratch of
capacity `compressCap`, then PNG wrap.  `deflate` is the system zlib
`compress2` provider, modelled as a pure function of source and level
(`none` = non-`Z_OK` return other than a too-small buffer, which the
capacity test models). -/
def process_one_layer (env : GpuEnv)
    (deflate : List Nat → Nat → Option (List Nat)) (blob : List Nat)
    (off len layerIndex encryptionKey srcW h outW ch : Nat) (xps yps : ℚ)
    (pngLevel : Int) : Option (List Nat × AreaStatsResult) :=
  if len = 0 ∨ off + len > blob.length then none
  else if srcW * h = 0 ∨ (1 + outW * ch) * h = 0 then none
  else
    match decrypt_and_decode_layer ((blob.drop off).take len) layerIndex
        encryptionKey (srcW * h) with
    | none => none
    | some pixels =>
      match compute_layer_area_stats pixels srcW h xps yps with
      | none => none
      | some area =>
        match build_scanlines_auto env true pixels srcW h outW ch with
        | none => none
        | some scanlines =>
          match deflate scanlines (clampLevel pngLevel) with
          | none => none
          | some comp =>
            if comp.length = 0 ∨ comp.length > compressCap ((1 + outW * ch) * h)
            then none
            else some (build_png_from_idat outW h ch comp, area)

/-- All layers of the batch in index order.  The worker pool hands each
index to exactly one worker and the per-layer outputs land in fixed
slots, so the batch's data flow is this sequential traversal. -/
def processLayers (env : GpuEnv)
    (deflate : List Nat → Nat → Option (List Nat)) (blob : List Nat)
    (offsets lengths : List Nat) (base encryptionKey srcW h outW ch : Nat)
    (xps yps : ℚ) (pngLevel : Int) :
    List Nat → Option (List (List Nat × AreaStatsResult))
  | [] => some []
  | i :: rest =>
    match process_one_layer env deflate blob (offsets.getD i 0)
        (lengths.getD i 0) (base + i) encryptionKey srcW h outW ch xps yps
        pngLevel with
    | none => none
    | some item =>
      match processLayers env deflate blob offsets lengths base encryptionKey
          srcW h outW ch xps yps pngLevel rest with
      | none => none
      | some items => some (item :: items)

/-- Running offsets of the output assembly
(`offs[i] = total_len` before item `i`). -/
def offsetsOf : List Nat → Nat → List Nat
  | [], _ => []
  | n :: rest, acc => acc :: offsetsOf rest (acc + n)

/-- `process_layers_batch`: validation, per-layer processing, then
concatenation of the per-layer PNGs into one blob with parallel
offset/length arrays and the per-layer area records. -/
def process_layers_batch (env : GpuEnv)
    (deflate : List Nat → Nat → Option (List Nat)) (blob : List Nat)
    (offsets lengths : List Nat) (count base encryptionKey srcW h outW ch : Nat)
    (xps yps : ℚ) (pngLevel : Int) :
    Option (List Nat × List Nat × List Nat × List AreaStatsResult) :=
  if blob.length = 0 ∨ count = 0 ∨ srcW = 0 ∨ h = 0 ∨ outW = 0 ∨
      (ch ≠ 1 ∧ ch ≠ 3) then none
  else
    match processLayers env deflate blob offsets lengths base encryptionKey
        srcW h outW ch xps yps pngLevel (List.range count) with
    | none => none
    | some items =>
      if items.any (fun it => it.1.length = 0) then none
      else
        let sizes := items.map (fun it => it.1.length)
        let total := sizes.sum
        if total = 0 ∨ total > 0x7FFFFFFF then none
        else
          some ((items.map Prod.fst).flatten, offsetsOf sizes 0, sizes,
            items.map Prod.snd)

/-! ### Batch concatenation refines single-layer processing (C2) -/

/-- `single_result(i)` as the claim words it: decode the layer with index
`layer_index_base + i`, build scanlines (pure CPU reference), deflate at
the level clamped to `0..9`, and wrap as signature ‖ IHDR ‖ one IDAT ‖
IEND. -/
def singleLayerResult (deflate : List Nat → Nat → Option (List Nat))
    (blob : List Nat) (off len layerIndex encryptionKey srcW h outW ch : Nat)
    (pngLevel : Int) : Option (List Nat) :=
  match decrypt_and_decode_layer ((blob.drop off).take len) layerIndex
      encryptionKey (srcW * h) with
  | none => none
  | some pixels =>
    match build_png_scanlines pixels srcW h outW ch with
    | none => none
    | some scanlines =>
      match deflate scanlines (clampLevel pngLevel) with
      | none => none
      | some comp => some (build_png_from_idat outW h ch comp)

theorem build_scanlines_auto_eq_cpu (env : GpuEnv) (allowGpu : Bool)
    (pixels : List Nat) (srcW h outW ch : Nat)
    (hc3 : ∀ sl, env.cudaSingle (some pixels) srcW h outW ch = some sl →
      build_png_scanlines pixels srcW h outW ch = some sl)
    (hc1 : ∀ sl, env.openclSingle (some pixels) srcW h outW ch = some sl →
      build_png_scanlines pixels srcW h outW ch = some sl)
    (sl : List Nat)
    (hauto : build_scanlines_auto env allowGpu pixels srcW h outW ch = some sl) :
    build_png_scanlines pixels srcW h outW ch = some sl := by
  unfold build_scanlines_auto at hauto
  split_ifs at hauto with hgpu h3 h1
  · cases hcu : env.cudaSingle (some pixels) srcW h outW ch with
    | none => rw [hcu] at hauto; exact hauto
    | some sl0 =>
      rw [hcu] at hauto
      cases hauto
      exact hc3 sl hcu
  · cases hcl : env.openclSingle (some pixels) srcW h outW ch with
    | none => rw [hcl] at hauto; exact hauto
    | some sl0 =>
      rw [hcl] at hauto
      cases hauto
      exact hc1 sl hcl
  · exact hauto
  · exact hauto

theorem process_one_layer_single (env : GpuEnv)
    (deflate : List Nat → Nat → Option (List Nat)) (blob : List Nat)
    (off len layerIndex encryptionKey srcW h outW ch : Nat) (xps yps : ℚ)
    (pngLevel : Int)
    (hc3 : ∀ pix sl, env.cudaSingle (some pix) srcW h outW ch = some sl →
      build_png_scanlines pix srcW h outW ch = some sl)
    (hc1 : ∀ pix sl, env.openclSingle (some pix) srcW h outW ch = some sl →
      build_png_scanlines pix srcW h outW ch = some sl)
    (item : List Nat × AreaStatsResult)
    (hrun : process_one_layer env deflate blob off len layerIndex
      encryptionKey srcW h outW ch xps yps pngLevel = some item) :
    singleLayerResult deflate blob off len layerIndex encryptionKey srcW h
      outW ch pngLevel = some item.1 := by
  unfold process_one_layer at hrun
  split_ifs at hrun with hb1 hb2
  cases hdec : decrypt_and_decode_layer ((blob.drop off).take len) layerIndex
      encryptionKey (srcW * h) with
  | none => rw [hdec] at hrun; simp at hrun
  | some pixels =>
    simp only [hdec] at hrun
    cases harea : compute_layer_area_stats pixels srcW h xps yps with
    | none => rw [harea] at hrun; simp at hrun
    | some area =>
      simp only [harea] at hrun
      cases hauto : build_scanlines_auto env true pixels srcW h outW ch with
      | none => rw [hauto] at hrun; simp at hrun
      | some scanlines =>
        simp only [hauto] at hrun
        cases hdef : deflate scanlines (clampLevel pngLevel) with
        | none => rw [hdef] at hrun; simp at hrun
        | some comp =>
          simp only [hdef] at hrun
          split_ifs at hrun with hcap
          have hcpu := build_scanlines_auto_eq_cpu env true pixels srcW h outW
            ch (hc3 pixels) (hc1 pixels) scanlines hauto
          simp only [singleLayerResult, hdec, hcpu, hdef]
          cases hrun
          rfl

theorem processLayers_spec (env : GpuEnv)
    (deflate : List Nat → Nat → Option (List Nat)) (blob : List Nat)
    (offsets lengths : List Nat) (base encryptionKey srcW h outW ch : Nat)
    (xps yps : ℚ) (pngLevel : Int) :
    ∀ (l : List Nat) (items : List (List Nat × AreaStatsResult)),
      processLayers env deflate blob offsets lengths base encryptionKey srcW h
        outW ch xps yps pngLevel l = some items →
      items.length = l.length ∧
      ∀ k it, items[k]? = some it →
        process_one_layer env deflate blob (offsets.getD (l.getD k 0) 0)
          (lengths.getD (l.getD k 0) 0) (base + l.getD k 0) encryptionKey srcW
          h outW ch xps yps pngLevel = some it := by
  intro l
  induction l with
  | nil =>
    intro items hrun
    cases hrun
    exact ⟨rfl, fun k it h => absurd h (by simp)⟩
  | cons i rest ih =>
    intro items hrun
    unfold processLayers at hrun
    cases hstep : process_one_layer env deflate blob (offsets.getD i 0)
        (lengths.getD i 0) (base + i) encryptionKey srcW h outW ch xps yps
        pngLevel with
    | none => rw [hstep] at hrun; simp at hrun
    | some item =>
      simp only [hstep] at hrun
      cases hrest : processLayers env deflate blob offsets lengths base
          encryptionKey srcW h outW ch xps yps pngLevel rest with
      | none => rw [hrest] at hrun; simp at hrun
      | some items' =>
        simp only [hrest] at hrun
        cases hrun
        obtain ⟨hlen, hall⟩ := ih items' hrest
        refine ⟨by simp [hlen], ?_⟩
        intro k it hk
        cases k with
        | zero =>
          simp only [List.getElem?_cons_zero] at hk
          cases hk
          simpa using hstep
        | succ k =>
          simp only [List.getElem?_cons_succ] at hk
          simpa using hall k it hk

theorem offsetsOf_getD :
    ∀ (sizes : List Nat) (acc i : Nat), i < sizes.length →
      (offsetsOf sizes acc).getD i 0 = acc + (sizes.take i).sum := by
  intro sizes
  induction sizes with
  | nil => intro acc i hi; simp at hi
  | cons n rest ih =>
    intro acc i hi
    cases i with
    | zero => simp [offsetsOf]
    | succ i =>
      simp only [offsetsOf, List.getD_cons_succ, List.take_succ_cons,
        List.sum_cons]
      rw [ih (acc + n) i (by simpa using hi)]
      ring

theorem flatten_slice :
    ∀ (ls : List (List Nat)) (i : Nat), i < ls.length →
      (ls.flatten.drop (((ls.map List.length).take i).sum)).take
          ((ls.map List.length).getD i 0) =
        ls.getD i [] := by
  intro ls
  induction ls with
  | nil => intro i hi; simp at hi
  | cons l0 rest ih =>
    intro i hi
    cases i with
    | zero =>
      simp only [List.map_cons, List.take_zero, List.sum_nil, List.drop_zero,
        List.getD_cons_zero, List.flatten_cons]
      exact List.take_left l0 rest.flatten
    | succ i =>
      simp only [List.map_cons, List.take_succ_cons, List.sum_cons,
        List.getD_cons_succ, List.flatten_cons]
      have hdrop : (l0 ++ rest.flatten).drop
          (l0.length + ((rest.map List.length).take i).sum) =
          rest.flatten.drop (((rest.map List.length).take i).sum) := by
        rw [← List.drop_drop, List.drop_left]
      rw [hdrop]
      exact ih i (by simpa using hi)

/-- **C2** — whenever `process_layers_batch` returns success,
`out_offsets[i]` is the sum of `out_lengths[0..i-1]`, and the slice
`out_blob[out_offsets[i] .. out_offsets[i]+out_lengths[i])` is
byte-for-byte the PNG of processing layer `i` alone: decode with layer
index `layer_index_base + i`, build scanlines, deflate at the clamped
level, and wrap as signature ‖ IHDR ‖ one IDAT ‖ IEND.  The GPU kernels
are external collaborators; their §4.5 contract (success implies
byte-for-byte CPU-equal output) is the `hc3`/`hc1` hypotheses. -/
theorem process_layers_batch_concat (env : GpuEnv)
    (deflate : List Nat → Nat → Option (List Nat))
    (blob offsets lengths : List Nat)
    (count base encryptionKey srcW h outW ch : Nat) (xps yps : ℚ) (lvl : Int)
    (hc3 : ∀ pix sl, env.cudaSingle (some pix) srcW h outW ch = some sl →
      build_png_scanlines pix srcW h outW ch = some sl)
    (hc1 : ∀ pix sl, env.openclSingle (some pix) srcW h outW ch = some sl →
      build_png_scanlines pix srcW h outW ch = some sl)
    (outBlob outOffsets outLengths : List Nat) (outAreas : List AreaStatsResult)
    (hres : process_layers_batch env deflate blob offsets lengths count base
      encryptionKey srcW h outW ch xps yps lvl =
        some (outBlob, outOffsets, outLengths, outAreas))
    (i : Nat) (hi : i < count) :
    outOffsets.getD i 0 = (outLengths.take i).sum ∧
    ∃ png, singleLayerResult deflate blob (offsets.getD i 0)
        (lengths.getD i 0) (base + i) encryptionKey srcW h outW ch lvl =
          some png ∧
      (outBlob.drop (outOffsets.getD i 0)).take (outLengths.getD i 0) = png := by
  unfold process_layers_batch at hres
  split_ifs at hres with hvalid
  cases hrun : processLayers env deflate blob offsets lengths base
      encryptionKey srcW h outW ch xps yps lvl (List.range count) with
  | none => rw [hrun] at hres; simp at hres
  | some items =>
    simp only [hrun] at hres
    split_ifs at hres with hany htot
    simp only [Option.some.injEq, Prod.mk.injEq] at hres
    obtain ⟨hb, ho, hl, -⟩ := hres
    obtain ⟨hspecLen, hspecAll⟩ := processLayers_spec env deflate blob offsets
      lengths base encryptionKey srcW h outW ch xps yps lvl
      (List.range count) items hrun
    have hilen : i < items.length := by
      rw [hspecLen, List.length_range]
      exact hi
    have hit : items[i]? = some (items.get ⟨i, hilen⟩) :=
      List.getElem?_eq_getElem hilen
    have hone := hspecAll i (items.get ⟨i, hilen⟩) hit
    rw [getD_range hi] at hone
    have hsingle := process_one_layer_single env deflate blob
      (offsets.getD i 0) (lengths.getD i 0) (base + i) encryptionKey srcW h
      outW ch xps yps lvl hc3 hc1 (items.get ⟨i, hilen⟩) hone
    have hsizes : items.map (fun it => it.1.length) =
        (items.map Prod.fst).map List.length := by
      rw [List.map_map]
      rfl
    have hszlen : i < (items.map (fun it => it.1.length)).length := by
      rw [List.length_map]
      exact hilen
    have hoff : outOffsets.getD i 0 =
        ((items.map (fun it => it.1.length)).take i).sum := by
      rw [← ho, offsetsOf_getD _ 0 i hszlen, Nat.zero_add]
    constructor
    · rw [hoff, ← hl]
    · refine ⟨(items.get ⟨i, hilen⟩).1, hsingle, ?_⟩
      have hilen' : i < (items.map Prod.fst).length := by
        rw [List.length_map]
        exact hilen
      have hslice := flatten_slice (items.map Prod.fst) i hilen'
      have hlsget : (items.map Prod.fst).getD i [] = (items.get ⟨i, hilen⟩).1 := by
        simp [List.getD_eq_getElem?_getD, List.getElem?_map, hit]
      rw [← hb, ← hl, hoff, hsizes, hslice, hlsget]

/-- Inactive-GPU environment for concrete batch runs. -/
def wEnv : GpuEnv :=
  ⟨false, 0, fun _ _ _ _ _ => none, fun _ _ _ _ _ => none,
    fun _ _ _ _ => 0, fun _ _ _ _ _ _ _ => none⟩

/-- A stand-in deflate provider (stored output) for concrete runs. -/
def wDeflate : List Nat → Nat → Option (List Nat) := fun src _ => some src

/-- The PNG of the one-layer batch below (1×1 grey zero layer, stored
IDAT `[2, 0]`). -/
def wPng : List Nat :=
  [137, 80, 78, 71, 13, 10, 26, 10, 0, 0, 0, 13, 73, 72, 68, 82, 0, 0, 0, 1,
   0, 0, 0, 1, 8, 0, 0, 0, 0, 58, 126, 155, 85, 0, 0, 0, 2, 73, 68, 65, 84,
   2, 0, 78, 205, 223, 56, 0, 0, 0, 0, 73, 69, 78, 68, 174, 66, 96, 130]

set_option maxRecDepth 200000 in
/-- Witness for `process_layers_batch_concat` on a one-layer batch. -/
theorem process_layers_batch_concat_witness :
    process_layers_batch wEnv wDeflate [0] [0] [1] 1 0 0 1 1 1 1 0 0 0 =
      some (wPng, [0], [59], [⟨0, 0, 0, 0, 0, 0, 0, 0⟩]) ∧
    (([0] : List Nat).getD 0 0 = (([59] : List Nat).take 0).sum ∧
      ∃ png, singleLayerResult wDeflate [0] 0 1 0 0 1 1 1 1 0 = some png ∧
        (wPng.drop (([0] : List Nat).getD 0 0)).take
          (([59] : List Nat).getD 0 0) = png) := by
  have hres : process_layers_batch wEnv wDeflate [0] [0] [1] 1 0 0 1 1 1 1 0 0 0 =
      some (wPng, [0], [59], [⟨0, 0, 0, 0, 0, 0, 0, 0⟩]) := by decide
  refine ⟨hres, ?_⟩
  exact process_layers_batch_concat wEnv wDeflate [0] [0] [1] 1 0 0 1 1 1 1
    0 0 0
    (fun pix sl hx => absurd hx (by simp [wEnv]))
    (fun pix sl hx => absurd hx (by simp [wEnv]))
    wPng [0] [59] [⟨0, 0, 0, 0, 0, 0, 0, 0⟩] hres 0 (by decide)

/-! ## Phased pipeline (`_phased_chunk` in `src/native/layer_pipeline.c`) -/

/-- `_decode_one_layer` of the decode phase: bounds check, decode into a
pre-allocated pixel buffer, then area stats. -/
def decodeOneLayer (blob : List Nat) (off len layerIndex encryptionKey
    pixelCount srcW h : Nat) (xps yps : ℚ) :
    Option (List Nat × AreaStatsResult) :=
  if len = 0 ∨ off + len > blob.length then none
  else
    match decrypt_and_decode_layer ((blob.drop off).take len) layerIndex
        encryptionKey pixelCount with
    | none => none
    | some pixels =>
      match compute_layer_area_stats pixels srcW h xps yps with
      | none => none
      | some area => some (pixels, area)

/-- Phase 1 over the chunk's layer indices. -/
def decodePhase (blob : List Nat) (offsets lengths : List Nat)
    (base encryptionKey pixelCount srcW h : Nat) (xps yps : ℚ) :
    List Nat → Option (List (List Nat × AreaStatsResult))
  | [] => some []
  | i :: rest =>
    match decodeOneLayer blob (offsets.getD i 0) (lengths.getD i 0) (base + i)
        encryptionKey pixelCount srcW h xps yps with
    | none => none
    | some item =>
      match decodePhase blob offsets lengths base encryptionKey pixelCount
          srcW h xps yps rest with
      | none => none
      | some items => some (item :: items)

/-- One layer of the per-layer GPU fallback loop: the single-layer kernel
of the active backend (OpenCL when backend = 1, else CUDA), then the
CPU builder on the same (possibly freed) pixel buffer; a NULL buffer
makes `build_png_scanlines` fail. -/
def gpuSingleFallback (env : GpuEnv) (backend : Nat) (p : Option (List Nat))
    (srcW h outW ch : Nat) : Option (List Nat) :=
  match (if backend = 1 then env.openclSingle p srcW h outW ch
    else env.cudaSingle p srcW h outW ch) with
  | some sl => some sl
  | none =>
    match p with
    | some pix => build_png_scanlines pix srcW h outW ch
    | none => none

/-- The `all_ok` loop of the per-layer GPU fallback. -/
def perLayerScanFallback (env : GpuEnv) (backend : Nat)
    (srcW h outW ch : Nat) : List (Option (List Nat)) →
    Option (List (List Nat))
  | [] => some []
  | p :: rest =>
    match gpuSingleFallback env backend p srcW h outW ch with
    | none => none
    | some sl =>
      match perLayerScanFallback env backend srcW h outW ch rest with
      | none => none
      | some sls => some (sl :: sls)

/-- The parallel CPU scanline phase (`_run_scanline_phase_cpu`); a freed
(NULL) pixel buffer makes `build_png_scanlines` fail. -/
def cpuScanPhase (srcW h outW ch : Nat) : List (Option (List Nat)) →
    Option (List (List Nat))
  | [] => some []
  | p :: rest =>
    match (match p with
      | some pix => build_png_scanlines pix srcW h outW ch
      | none => none) with
    | none => none
    | some sl =>
      match cpuScanPhase srcW h outW ch rest with
      | none => none
      | some sls => some (sl :: sls)

/-- Phase 2 of `_phased_chunk`.  When the CUDA mega-batch is attempted,
the copy loop frees every per-layer pixel buffer as it concatenates them
(`free(pixels[i]); pixels[i] = NULL`), so on kernel failure the per-layer
GPU and CPU fallbacks run on NULL buffers.  Returns the per-layer
scanline buffers and the `gpu_batch_ok` flag, or `none` on chunk failure. -/
def phasedScanlinePhase (env : GpuEnv) (useGpuBatch : Bool)
    (pixelsIn : List (List Nat)) (srcW h outW ch scanlinesLen : Nat) :
    Option (List (List Nat) × Bool) :=
  if useGpuBatch = true ∧ env.active = true then
    if env.backend = 3 ∧
        pixelsIn.length ≤ (let m := env.cudaMaxConcurrent srcW h outW ch
          if m ≤ 0 ∨ 8 < m then 8 else m.toNat) then
      match env.cudaBatch pixelsIn.flatten pixelsIn.length srcW h outW ch
          scanlinesLen with
      | some sblob =>
        some ((List.range pixelsIn.length).map
          (fun i => (sblob.drop (scanlinesLen * i)).take scanlinesLen), true)
      | none =>
        match perLayerScanFallback env env.backend srcW h outW ch
            (List.replicate pixelsIn.length none) with
        | some bufs => some (bufs, true)
        | none =>
          match cpuScanPhase srcW h outW ch
              (List.replicate pixelsIn.length none) with
          | some bufs => some (bufs, false)
          | none => none
    else
      if env.backend = 1 ∨ env.backend = 3 then
        match perLayerScanFallback env env.backend srcW h outW ch
            (pixelsIn.map some) with
        | some bufs => some (bufs, true)
        | none =>
          match cpuScanPhase srcW h outW ch (pixelsIn.map some) with
          | some bufs => some (bufs, false)
          | none => none
      else
        match cpuScanPhase srcW h outW ch (pixelsIn.map some) with
        | some bufs => some (bufs, false)
        | none => none
  else
    match cpuScanPhase srcW h outW ch (pixelsIn.map some) with
    | some bufs => some (bufs, false)
    | none => none

/-- Phase 3 (`_compress_one_layer` over the chunk): deflate each layer's
scanlines at the clamped level into a scratch of capacity `compressCap`,
then wrap as a PNG. -/
def compressPhase (deflate : List Nat → Nat → Option (List Nat))
    (outW h ch scanlinesLen : Nat) (pngLevel : Int) :
    List (List Nat) → Option (List (List Nat))
  | [] => some []
  | sl :: rest =>
    match deflate sl (clampLevel pngLevel) with
    | none => none
    | some comp =>
      if comp.length = 0 ∨ comp.length > compressCap scanlinesLen then none
      else
        match compressPhase deflate outW h ch scanlinesLen pngLevel rest with
        | none => none
        | some pngs => some (build_png_from_idat outW h ch comp :: pngs)

/-- `_phased_chunk`: decode phase, scanline phase, compress phase in
order; any phase failure fails the chunk (and hence the batch). -/
def phased_chunk (env : GpuEnv)
    (deflate : List Nat → Nat → Option (List Nat)) (blob : List Nat)
    (offsets lengths : List Nat) (count base encryptionKey srcW h outW ch : Nat)
    (xps yps : ℚ) (pngLevel : Int) (useGpuBatch : Bool) :
    Option (List (List Nat) × List AreaStatsResult × Bool) :=
  match decodePhase blob offsets lengths base encryptionKey (srcW * h) srcW h
      xps yps (List.range count) with
  | none => none
  | some decoded =>
    match phasedScanlinePhase env useGpuBatch (decoded.map Prod.fst) srcW h
        outW ch ((1 + outW * ch) * h) with
    | none => none
    | some res =>
      match compressPhase deflate outW h ch ((1 + outW * ch) * h) pngLevel
          res.1 with
      | none => none
      | some pngs => some (pngs, decoded.map Prod.snd, res.2)

/-- A CUDA environment whose mega-batch and single-layer kernels fail
(the S7-style forced-failure scenario). -/
def cudaFailEnv : GpuEnv :=
  ⟨true, 3, fun _ _ _ _ _ => none, fun _ _ _ _ _ => none,
    fun _ _ _ _ => 8, fun _ _ _ _ _ _ _ => none⟩

set_option maxRecDepth 200000 in
/-- **C1** — refuted on the code: on a 1-layer chunk whose decode phase
succeeds, with the CUDA backend active and both the mega-batch kernel and
the per-layer kernel failing, `_phased_chunk` returns failure instead of
falling back to the CPU scanlines: the mega-batch copy loop has already
freed every per-layer pixel buffer, so the per-layer GPU calls and the
CPU builder run on NULL buffers and the chunk aborts.  The same chunk
with `use_gpu_batch = 0` succeeds on the pure-CPU path, producing the
output the claim says the GPU-batch run should still deliver. -/
theorem phased_mega_batch_fallback_fails :
    decodePhase [0] [0] [1] 0 0 1 1 1 0 0 (List.range 1) =
      some [([0], ⟨0, 0, 0, 0, 0, 0, 0, 0⟩)] ∧
    phased_chunk cudaFailEnv wDeflate [0] [0] [1] 1 0 0 1 1 1 1 0 0 0 true =
      none ∧
    phased_chunk cudaFailEnv wDeflate [0] [0] [1] 1 0 0 1 1 1 1 0 0 0 false =
      some ([wPng], [⟨0, 0, 0, 0, 0, 0, 0, 0⟩], false) := by
  refine ⟨by decide, by decide, by decide⟩

end VoxelShift
